import Mathlib

/-!
Verification of the rule-based clinical-text classification engine of the
Post_Care_System repository (`post_care_app.py`, lines 138-545).

Strings are modelled as `List Char` (Python `str`).  Python's substring
test `sub in s` and `s.find(sub)` are modelled by `containsSub` and
`findSub`; `str.lower()` is modelled by ASCII lowercasing (`Char.toLower`),
which agrees with Python on the ASCII texts the engine's keyword lists
are written in.
-/

set_option maxRecDepth 10000

abbrev Str := List Char

/-- The character list of a string literal. -/
def chars (s : String) : Str := s.data

/-- The character lists of a list of string literals. -/
def charsL (l : List String) : List Str := l.map String.data

/-- Python `text.lower()` (ASCII model). -/
def lowerStr (s : Str) : Str := s.map Char.toLower

/-- Auxiliary scan for Python `s.find(sub)`: first index `≥ i` at which
`sub` occurs, scanning the remaining text `s`. -/
def findSubAux (sub : Str) : Str → Nat → Option Nat
  | s, i =>
    if sub.isPrefixOf s then some i
    else
      match s with
      | [] => none
      | _ :: t => findSubAux sub t (i + 1)

/-- Python `s.find(sub)` (as `Option`: `none` for Python's `-1`). -/
def findSub (sub s : Str) : Option Nat := findSubAux sub s 0

/-- Python `sub in s`. -/
def containsSub (sub s : Str) : Bool := (findSub sub s).isSome

/-- Python `s[max(0, p-20):p]`: the 20-character window preceding offset `p`. -/
def window20 (s : Str) (p : Nat) : Str := (s.take p).drop (p - 20)

/- ------------------------------------------------------------------ -/
/- Risk Scorer: `assess_risk_level` (post_care_app.py lines 485-545)  -/
/- ------------------------------------------------------------------ -/

/-- `negative_indicators` of `assess_risk_level`. -/
def negativeIndicators : List Str :=
  charsL ["haven't", "have not", "no", "not", "never", "none", "without", "don't", "do not"]

/-- `high_risk_keywords` of `assess_risk_level`. -/
def highRiskKeywords : List Str :=
  charsL ["severe", "chest pain", "difficulty breathing", "emergency", "unbearable",
          "pain level 8", "pain level 9", "pain level 10", "worsening", "worse",
          "shortness of breath", "dizziness", "fainting", "swelling", "rapid heartbeat",
          "irregular heartbeat", "nausea", "vomiting", "sweating", "fatigue severe"]

/-- `low_risk_keywords` of `assess_risk_level`. -/
def lowRiskKeywords : List Str :=
  charsL ["no pain", "feeling better", "improving", "normal", "stable", "good",
          "pain level 1", "pain level 2", "pain level 3", "comfortable", "well",
          "no issues", "no problems", "managing well", "feeling fine", "recovering",
          "all good", "fine", "great", "excellent", "ok", "okay", "everything is fine",
          "everything is good", "nothing wrong", "no symptoms", "feeling good",
          "better", "no concerns", "everything", "nothing", "none", "alright",
          "doing well", "doing good", "all is well", "perfectly fine"]

/-- `medium_risk_keywords` of `assess_risk_level`. -/
def mediumRiskKeywords : List Str :=
  charsL ["moderate", "occasional", "mild", "pain level 4", "pain level 5",
          "pain level 6", "some discomfort", "manageable", "tolerable"]

/-- `has_negative` of `assess_risk_level`: some negation cue occurs anywhere. -/
def hasNegative (t : Str) : Bool := negativeIndicators.any fun n => containsSub n t

/-- One step of the `high_risk_count` loop: a keyword counts when it is
present and no negation cue occurs in the 20-character window before its
first occurrence. -/
def highKeywordCounts (t kw : Str) : Bool :=
  match findSub kw t with
  | some p => !(negativeIndicators.any fun n => containsSub n (window20 t p))
  | none => false

/-- `high_risk_count` of `assess_risk_level`. -/
def highRiskCount (t : Str) : Nat := (highRiskKeywords.filter (highKeywordCounts t)).length

/-- `low_risk_count` before the negation correction. -/
def lowRiskCountBase (t : Str) : Nat := (lowRiskKeywords.filter (containsSub · t)).length

/-- `low_risk_count` after the correction
`if has_negative and any(kw in text for kw in high_risk_keywords): low_risk_count += 2`. -/
def lowRiskCount (t : Str) : Nat :=
  lowRiskCountBase t +
    (if hasNegative t && highRiskKeywords.any (fun kw => containsSub kw t) then 2 else 0)

/-- `medium_risk_count` of `assess_risk_level`. -/
def mediumRiskCount (t : Str) : Nat := (mediumRiskKeywords.filter (containsSub · t)).length

/-- The list `["severe", "emergency", "pain level 9", "pain level 10"]` tested
inline in the `high` branch of `assess_risk_level`. -/
def severeOverrideKeywords : List Str :=
  charsL ["severe", "emergency", "pain level 9", "pain level 10"]

/-- The inline absolute-override test of the `high` branch. -/
def severePresent (t : Str) : Bool := severeOverrideKeywords.any fun kw => containsSub kw t

/-- The decision cascade of `assess_risk_level`, taken verbatim from the
four `if/elif` branches (lines 536-545). -/
def decideRisk (hi lo md : Nat) (ovr : Bool) : String :=
  if 2 ≤ hi ∨ ovr = true then "high"
  else if 1 ≤ lo ∧ hi = 0 ∧ md = 0 then "low"
  else if 2 ≤ lo ∧ hi = 0 then "low"
  else if 1 ≤ md ∧ hi = 0 ∧ lo = 0 then "medium"
  else "medium"

/-- `assess_risk_level(text)` (post_care_app.py lines 485-545). -/
def assess_risk_level (text : Str) : String :=
  decideRisk (highRiskCount (lowerStr text)) (lowRiskCount (lowerStr text))
    (mediumRiskCount (lowerStr text)) (severePresent (lowerStr text))

/-- Variant of `assess_risk_level` with the global negation correction
(line 533-534, `low_risk_count += 2`) removed; used to state that the
correction never moves the result toward high risk (claim C6). -/
def assess_risk_level_noCorrection (text : Str) : String :=
  decideRisk (highRiskCount (lowerStr text)) (lowRiskCountBase (lowerStr text))
    (mediumRiskCount (lowerStr text)) (severePresent (lowerStr text))

/-- Rank of a risk label in the order low < medium < high. -/
def riskRank (s : String) : Nat :=
  if s = "high" then 2 else if s = "medium" then 1 else 0

/- ------------------------------------------------------------------ -/
/- Domain Analyzers (post_care_app.py lines 386-462)                  -/
/- ------------------------------------------------------------------ -/

/-- The four keyword lists of `analyze_cardiac_content` (lines 390-396). -/
def cardiacConcerningWords : List Str :=
  charsL ["severe", "emergency", "unbearable", "level 8", "level 9", "level 10"]

/-- Moderate keywords of the cardiac analyzer. -/
def cardiacModerateWords : List Str :=
  charsL ["moderate", "level 4", "level 5", "level 6", "occasional"]

/-- Mild keywords of the cardiac analyzer. -/
def cardiacMildWords : List Str :=
  charsL ["mild", "level 1", "level 2", "level 3", "improving"]

/-- Positive keywords of the cardiac analyzer. -/
def cardiacPositiveWords : List Str :=
  charsL ["no pain", "no symptoms", "feeling good", "normal", "all good", "good",
          "fine", "great", "excellent", "ok", "okay", "well", "better", "no issues",
          "no problems", "nothing", "none"]

/-- `analyze_cardiac_content(text)` (lines 386-399). -/
def analyze_cardiac_content (text : Str) : String :=
  if cardiacConcerningWords.any (fun w => containsSub w (lowerStr text)) then
    "⚠️ CONCERNING SYMPTOMS - Requires immediate medical attention"
  else if cardiacModerateWords.any (fun w => containsSub w (lowerStr text)) then
    "🔶 Moderate symptoms noted - Continue close monitoring"
  else if cardiacMildWords.any (fun w => containsSub w (lowerStr text)) then
    "✅ Mild symptoms - Positive recovery trajectory"
  else if cardiacPositiveWords.any (fun w => containsSub w (lowerStr text)) then
    "✅ No significant cardiac symptoms reported"
  else
    "🔍 Mixed symptom presentation - Requires clinical evaluation"

/-- `negative_indicators` shared verbatim by `analyze_respiratory_content` and
`analyze_medication_content` (lines 406 and 430): seven cues, without
`"don't"` and `"do not"`. -/
def analyzerNegativeIndicators : List Str :=
  charsL ["haven't", "have not", "no", "not", "never", "none", "without"]

/-- `concerning_words` of `analyze_respiratory_content` (line 410). -/
def respConcerningWords : List Str :=
  charsL ["severe", "difficulty breathing", "shortness", "can't breathe"]

/-- `has_negative` of the respiratory analyzer. -/
def respHasNegative (t : Str) : Bool := analyzerNegativeIndicators.any fun n => containsSub n t

/-- `has_concerning` of the respiratory analyzer. -/
def respHasConcerning (t : Str) : Bool := respConcerningWords.any fun w => containsSub w t

/-- `analyze_respiratory_content(text)` (lines 401-423). -/
def analyze_respiratory_content (text : Str) : String :=
  let t := lowerStr text
  if respHasConcerning t && respHasNegative t then
    "✅ No significant respiratory symptoms reported"
  else if respHasConcerning t && !respHasNegative t then
    "⚠️ Respiratory concerns noted - Monitor closely"
  else if (charsL ["some", "mild", "slight", "occasional"]).any (fun w => containsSub w t) then
    "🔶 Mild respiratory symptoms - Within expected recovery range"
  else if (charsL ["good", "normal", "no problems", "breathing well", "all good", "fine",
                   "great", "excellent", "ok", "okay", "well", "better", "no issues",
                   "nothing", "none"]).any (fun w => containsSub w t) then
    "✅ Normal respiratory function reported"
  else
    "🔍 Respiratory status requires further evaluation"

/-- `concerning_words` of `analyze_medication_content` (line 434). -/
def medConcerningWords : List Str := charsL ["not taking", "stopped", "forgot", "can't afford"]

/-- `side_effect_words` of `analyze_medication_content` (line 435). -/
def medSideEffectWords : List Str := charsL ["side effects", "problems", "reaction", "dizzy", "nausea"]

/-- `has_negative` of the medication analyzer. -/
def medHasNegative (t : Str) : Bool := analyzerNegativeIndicators.any fun n => containsSub n t

/-- `has_adherence_issues` of the medication analyzer. -/
def medHasAdherenceIssues (t : Str) : Bool := medConcerningWords.any fun w => containsSub w t

/-- `has_side_effects` of the medication analyzer. -/
def medHasSideEffects (t : Str) : Bool := medSideEffectWords.any fun w => containsSub w t

/-- `analyze_medication_content(text)` (lines 425-449). -/
def analyze_medication_content (text : Str) : String :=
  let t := lowerStr text
  let hasAdherenceIssues := medHasAdherenceIssues t
  let hasSideEffects := medHasSideEffects t
  if hasAdherenceIssues && !medHasNegative t then
    "⚠️ MEDICATION ADHERENCE CONCERN - Requires immediate intervention"
  else if hasSideEffects && medHasNegative t then
    "✅ Good medication tolerance - No side effects reported"
  else if hasSideEffects && !medHasNegative t then
    "🔶 Side effects reported - May require medication adjustment"
  else if (charsL ["taking as directed", "compliant", "following", "no problems", "all good",
                   "good", "fine", "great", "excellent", "ok", "okay", "well", "better",
                   "no issues", "taking", "yes", "everything", "nothing"]).any
      (fun w => containsSub w t) then
    "✅ Good medication adherence - Continue current regimen"
  else
    "🔍 Medication compliance status needs clarification"

/-- Concerning keywords of `analyze_activity_content` (line 455). -/
def activityConcerningWords : List Str :=
  charsL ["can't", "unable", "too tired", "exhausted", "bed rest"]

/-- Moderate keywords of the activity analyzer. -/
def activityModerateWords : List Str :=
  charsL ["some fatigue", "getting better", "slowly improving"]

/-- Positive keywords of the activity analyzer. -/
def activityPositiveWords : List Str :=
  charsL ["normal", "good energy", "active", "no problems", "all good", "good",
          "fine", "great", "excellent", "ok", "okay", "well", "better", "no issues",
          "everything", "nothing"]

/-- `analyze_activity_content(text)` (lines 451-462). -/
def analyze_activity_content (text : Str) : String :=
  if activityConcerningWords.any (fun w => containsSub w (lowerStr text)) then
    "⚠️ Significant activity limitations - Consider intervention"
  else if activityModerateWords.any (fun w => containsSub w (lowerStr text)) then
    "🔶 Gradual improvement in activity tolerance noted"
  else if activityPositiveWords.any (fun w => containsSub w (lowerStr text)) then
    "✅ Good activity tolerance - Recovery progressing well"
  else
    "🔍 Activity level requires further assessment"

/- ------------------------------------------------------------------ -/
/- Recovery-Stage Assessor: `assess_recovery_stage` (lines 325-354)   -/
/- ------------------------------------------------------------------ -/

/-- `negative_indicators` of `assess_recovery_stage` (line 331): eight cues
including `"don't"` but not `"do not"`. -/
def recoveryNegIndicators : List Str :=
  charsL ["haven't", "have not", "no", "not", "never", "none", "without", "don't"]

/-- `excellent_indicators` (line 334). -/
def excellentIndicators : List Str :=
  charsL ["excellent", "great", "perfect", "no issues", "normal", "all good"]

/-- `good_indicators` (line 335). -/
def goodIndicators : List Str :=
  charsL ["good", "fine", "better", "improving", "stable", "feel good"]

/-- `concerning_indicators` (line 336). -/
def concerningIndicators : List Str :=
  charsL ["severe", "pain", "difficulty", "problems", "worse", "tired", "can't"]

/-- The decision cascade of `assess_recovery_stage` (lines 347-354). -/
def decideStage (e g c : Nat) : String :=
  if 2 ≤ e ∨ (3 ≤ g ∧ c = 0) then
    "🟢 Advanced recovery stage - patient demonstrating excellent progress"
  else if 2 ≤ g ∧ c = 0 then
    "🟡 Intermediate recovery stage - steady progress with good indicators"
  else if 2 ≤ c then
    "🔴 Early recovery stage - requires intensive monitoring and support"
  else
    "🟡 Progressive recovery stage - showing gradual improvement"

/-- The `" ".join([x.lower() for x in [cardiac, respiratory, medication, activity]])`
text that `assess_recovery_stage` operates on. -/
def recoveryFullText (ca re me ac : Str) : Str :=
  lowerStr ca ++ ' ' :: (lowerStr re ++ ' ' :: (lowerStr me ++ ' ' :: lowerStr ac))

/-- `has_negative_symptoms` of `assess_recovery_stage`. -/
def recoveryHasNeg (full : Str) : Bool := recoveryNegIndicators.any fun n => containsSub n full

/-- `excellent_count` of `assess_recovery_stage` (before the correction). -/
def excCount (full : Str) : Nat := (excellentIndicators.filter (containsSub · full)).length

/-- `good_count` of `assess_recovery_stage`. -/
def goodCount (full : Str) : Nat := (goodIndicators.filter (containsSub · full)).length

/-- `concerning_count` of `assess_recovery_stage` (before the correction). -/
def concCount (full : Str) : Nat := (concerningIndicators.filter (containsSub · full)).length

/-- `assess_recovery_stage(cardiac, respiratory, medication, activity)`
(lines 325-354), with the negation correction of lines 343-345. -/
def assess_recovery_stage (ca re me ac : Str) : String :=
  if 0 < concCount (recoveryFullText ca re me ac) ∧
      recoveryHasNeg (recoveryFullText ca re me ac) = true then
    decideStage (excCount (recoveryFullText ca re me ac) + 1)
      (goodCount (recoveryFullText ca re me ac)) 0
  else
    decideStage (excCount (recoveryFullText ca re me ac))
      (goodCount (recoveryFullText ca re me ac)) (concCount (recoveryFullText ca re me ac))

/-- Variant of `assess_recovery_stage` with the negation correction removed
(used to state that the correction never moves the stage backward, claim C6). -/
def assess_recovery_stage_noCorrection (ca re me ac : Str) : String :=
  decideStage (excCount (recoveryFullText ca re me ac))
    (goodCount (recoveryFullText ca re me ac)) (concCount (recoveryFullText ca re me ac))

/-- Rank of a recovery-stage label in the order
Early < Progressive < Intermediate < Advanced. -/
def stageRank (s : String) : Nat :=
  if s = "🟢 Advanced recovery stage - patient demonstrating excellent progress" then 3
  else if s = "🟡 Intermediate recovery stage - steady progress with good indicators" then 2
  else if s = "🟡 Progressive recovery stage - showing gradual improvement" then 1
  else 0

/- ------------------------------------------------------------------ -/
/- Summary Composer (lines 249-323, 356-384, 464-483)                 -/
/- ------------------------------------------------------------------ -/

/-- `determine_overall_status(cardiac, respiratory, medication, activity)`
(lines 309-323): counts analyses containing `"✅"` and `"⚠️"`. -/
def determine_overall_status (ca re me ac : String) : String :=
  let analyses := [ca, re, me, ac]
  let positiveCount := (analyses.filter fun a => containsSub (chars "✅") a.data).length
  let concerningCount := (analyses.filter fun a => containsSub (chars "⚠️") a.data).length
  if 2 ≤ concerningCount then
    "⚠️ Multiple areas of concern requiring immediate medical attention"
  else if concerningCount = 1 then
    "🔶 One area of concern noted - requires monitoring and possible intervention"
  else if 3 ≤ positiveCount then
    "✅ Patient showing excellent recovery progress across all major areas"
  else if 2 ≤ positiveCount then
    "✅ Patient showing good recovery progress with stable condition"
  else
    "🔶 Mixed recovery indicators - requires continued close monitoring"

/-- `generate_clinical_recommendations(cardiac, respiratory, medication, activity)`
(lines 356-384). -/
def generate_clinical_recommendations (ca re me ac : String) : String :=
  let recs : List String :=
    (if containsSub (chars "⚠️") ca.data then ["Immediate cardiac evaluation"]
     else if containsSub (chars "🔶") ca.data then ["Enhanced cardiac monitoring"] else []) ++
    (if containsSub (chars "⚠️") re.data then ["Respiratory function assessment"]
     else if containsSub (chars "🔶") re.data then ["Monitor breathing patterns"] else []) ++
    (if containsSub (chars "⚠️") me.data then ["Medication review and adjustment"]
     else if containsSub (chars "🔶") me.data then ["Medication compliance support"] else []) ++
    (if containsSub (chars "⚠️") ac.data then ["Physical therapy evaluation"]
     else if containsSub (chars "🔶") ac.data then ["Gradual activity progression"] else [])
  let recs := if recs = [] then
    ["Continue current treatment plan", "Regular follow-up monitoring"] else recs
  String.intercalate " • " recs

/-- `generate_enhanced_template_summary` (lines 275-307).  The Python code
interpolates `datetime.datetime.now().strftime("%Y-%m-%d %H:%M")` into the
report; the current clock reading is made an explicit parameter `now`. -/
def generate_enhanced_template_summary (ca re me ac : Str) (now : String) : String :=
  let cardiacAnalysis := analyze_cardiac_content ca
  let respiratoryAnalysis := analyze_respiratory_content re
  let medicationAnalysis := analyze_medication_content me
  let activityAnalysis := analyze_activity_content ac
  let overallStatus := determine_overall_status cardiacAnalysis respiratoryAnalysis
    medicationAnalysis activityAnalysis
  let recoveryStage := assess_recovery_stage ca re me ac
  let clinicalRecommendations := generate_clinical_recommendations cardiacAnalysis
    respiratoryAnalysis medicationAnalysis activityAnalysis
  "PATIENT ASSESSMENT SUMMARY (Intelligent Medical Analysis):\n\nOVERALL STATUS: "
    ++ overallStatus
    ++ "\n\nDETAILED ASSESSMENT:\n• Cardiac Function: " ++ cardiacAnalysis
    ++ "\n• Respiratory Status: " ++ respiratoryAnalysis
    ++ "  \n• Medication Management: " ++ medicationAnalysis
    ++ "\n• Physical Activity: " ++ activityAnalysis
    ++ "\n\nRECOVERY ASSESSMENT: " ++ recoveryStage
    ++ "\n\nCLINICAL NOTES:\n• Assessment date: " ++ now
    ++ "\n• Analysis method: Advanced keyword recognition with medical logic\n• Recommendations: "
    ++ clinicalRecommendations
    ++ "\n• Next steps: Continue monitoring per established care plan"

/-- The concatenation `f"{cardiac} {breathing} {medication} {activity}"` used
for risk scoring (lines 262 and 480). -/
def fullText (ca br me ac : Str) : Str := ca ++ ' ' :: (br ++ ' ' :: (me ++ ' ' :: ac))

/-- `generate_ai_summary` (lines 249-273): the `assess` operation.  Its try
branch always takes the enhanced-template path; the clock is the explicit
`now` parameter.  Returns `(summary_report, risk_level)`. -/
def generate_ai_summary (ca br me ac : Str) (now : String) : String × String :=
  (generate_enhanced_template_summary ca br me ac now,
   assess_risk_level (fullText ca br me ac))

/-- Python `field[:150] + ('...' if len(field) > 150 else '')` used by the
fallback template. -/
def truncate150 (s : Str) : String :=
  String.mk (s.take 150) ++ (if 150 < s.length then "..." else "")

/-- `generate_fallback_summary` (lines 464-483), with the clock explicit. -/
def generate_fallback_summary (ca br me ac : Str) (now : String) : String × String :=
  ("PATIENT ASSESSMENT SUMMARY (Template-Based):\n\nCardiac Status: "
      ++ truncate150 ca
      ++ "\n\nRespiratory Function: " ++ truncate150 br
      ++ "\n\nMedication Management: " ++ truncate150 me
      ++ "\n\nActivity and Recovery: " ++ truncate150 ac
      ++ "\n\nClinical Note: This summary was generated using template-based analysis. \nAssessment completed on "
      ++ now ++ ".",
   assess_risk_level (fullText ca br me ac))

/- ------------------------------------------------------------------ -/
/- Summary Cleaner: `clean_api_summary` (lines 138-166)               -/
/- ------------------------------------------------------------------ -/

/-- Python regex `\w` for the ASCII texts at hand: letters, digits,
underscore (code points 65-90, 97-122, 48-57, 95). -/
def isWordChar (c : Char) : Bool :=
  decide ((65 ≤ c.toNat ∧ c.toNat ≤ 90) ∨ (97 ≤ c.toNat ∧ c.toNat ≤ 122) ∨
          (48 ≤ c.toNat ∧ c.toNat ≤ 57) ∨ c.toNat = 95)

/-- Python regex `\s` (ASCII): space, tab, newline, carriage return,
vertical tab, form feed (code points 32, 9, 10, 13, 11, 12). -/
def isSpc (c : Char) : Bool :=
  decide (c.toNat = 32 ∨ c.toNat = 9 ∨ c.toNat = 10 ∨ c.toNat = 13 ∨
          c.toNat = 11 ∨ c.toNat = 12)

/-- Python `ch.isupper()` for ASCII: code points 65-90. -/
def isUpperC (c : Char) : Bool := decide (65 ≤ c.toNat ∧ c.toNat ≤ 90)

/-- Whether the character at index `i` of `s` exists and is a word character. -/
def wordAt (s : Str) (i : Nat) : Bool :=
  match s.drop i with
  | [] => false
  | c :: _ => isWordChar c

/-- Length of the maximal run of characters satisfying `p` starting at index `i`. -/
def runLen (p : Char → Bool) (s : Str) (i : Nat) : Nat := ((s.drop i).takeWhile p).length

/-- Case-insensitive character equality (regex flag `IGNORECASE`, ASCII model). -/
def ciEq (a b : Char) : Bool := decide (a.toLower = b.toLower)

/-- Case-insensitive prefix test. -/
def ciPre : Str → Str → Bool
  | [], _ => true
  | _ :: _, [] => false
  | a :: as, b :: bs => ciEq a b && ciPre as bs

/-- Whether `pat` matches case-insensitively at index `i` of `s`. -/
def ciMatchAt (pat : Str) (s : Str) (i : Nat) : Bool := ciPre pat (s.drop i)

/-- Regex `\b` holds before index `i` when the previous character is absent
or not a word character (used where the next pattern atom is `\w`). -/
def boundaryBefore (s : Str) (i : Nat) : Bool :=
  i == 0 || !wordAt s (i - 1)

/-- Regex `\b` holds after a word character ending at index `i - 1` when the
character at `i` is absent or not a word character. -/
def boundaryAfter (s : Str) (i : Nat) : Bool :=
  i == s.length || !wordAt s i

/-- Matcher for `\b(cardiac|patient)\s+\1\b` with `IGNORECASE` at index `i`:
returns the match length and the replacement `\1` (the first word as it
appears in the text).  Since the alternatives are fixed 7-letter words
followed by mandatory whitespace, the greedy engine admits exactly one
match shape: the whole word, the whole whitespace run, the backreference.
`dupAltMatch` checks one alternative of the group at index `i`. -/
def dupAltMatch (s : Str) (i : Nat) (alt : Str) : Option (Nat × Str) :=
  if ciMatchAt alt s i then
    if runLen isSpc s (i + alt.length) ≠ 0
        && ciMatchAt alt s (i + alt.length + runLen isSpc s (i + alt.length))
        && boundaryAfter s (i + alt.length + runLen isSpc s (i + alt.length) + alt.length) then
      some (alt.length + runLen isSpc s (i + alt.length) + alt.length,
        (s.drop i).take alt.length)
    else none
  else none

def matchDupKw (s : Str) (i : Nat) : Option (Nat × Str) :=
  if boundaryBefore s i then
    (charsL ["cardiac", "patient"]).findSome? (dupAltMatch s i)
  else none

/-- Matcher for `\b(\w+)\s+\1\b` with `IGNORECASE` at index `i`.  The greedy
group must be the maximal word run (anything shorter is followed by a word
character, failing `\s+`), the whitespace must be the maximal run (anything
shorter is followed by whitespace, failing the backreference), and the
backreference must be followed by a boundary. -/
def matchDupWord (s : Str) (i : Nat) : Option (Nat × Str) :=
  if boundaryBefore s i then
    if runLen isWordChar s i = 0 then none
    else if runLen isSpc s (i + runLen isWordChar s i) = 0 then none
    else if ciMatchAt ((s.drop i).take (runLen isWordChar s i)) s
          (i + runLen isWordChar s i + runLen isSpc s (i + runLen isWordChar s i))
        && boundaryAfter s (i + runLen isWordChar s i
          + runLen isSpc s (i + runLen isWordChar s i) + runLen isWordChar s i) then
      some (runLen isWordChar s i + runLen isSpc s (i + runLen isWordChar s i)
          + runLen isWordChar s i,
        (s.drop i).take (runLen isWordChar s i))
    else none
  else none

/-- Matcher for `:\s*:` at index `i` (replacement `":"`). -/
def matchColon (s : Str) (i : Nat) : Option (Nat × Str) :=
  match s.drop i with
  | ':' :: _ =>
    let r := runLen isSpc s (i + 1)
    match s.drop (i + 1 + r) with
    | ':' :: _ => some (1 + r + 1, [':'])
    | _ => none
  | _ => none

/-- Matcher for `\s+` at index `i` (replacement `" "`). -/
def matchWs (s : Str) (i : Nat) : Option (Nat × Str) :=
  let r := runLen isSpc s i
  if r = 0 then none else some (r, [' '])

/-- Scan for the leftmost match of `f` starting at index `i`, trying `rem`
further indices after `i`. -/
def findFromAux (f : Str → Nat → Option (Nat × Str)) (s : Str) : Nat → Nat → Option (Nat × Nat × Str)
  | i, 0 =>
    match f s i with
    | some m => some (i, m.1, m.2)
    | none => none
  | i, rem + 1 =>
    match f s i with
    | some m => some (i, m.1, m.2)
    | none => findFromAux f s (i + 1) rem

/-- Leftmost match of `f` at an index in `[start, s.length]`. -/
def findFrom (f : Str → Nat → Option (Nat × Str)) (s : Str) (start : Nat) :
    Option (Nat × Nat × Str) :=
  if start ≤ s.length then findFromAux f s start (s.length - start) else none

/-- The scan loop of `re.sub`: repeatedly find the leftmost match at or
after the current position in the original string, emit the unmatched
segment and the replacement, and continue after the match.  `fuel` bounds
the number of replacements (every match of the patterns above has positive
length, so `s.length + 1` suffices). -/
def subAllAux (f : Str → Nat → Option (Nat × Str)) (s : Str) : Nat → Nat → Str
  | 0, start => s.drop start
  | fuel + 1, start =>
    match findFrom f s start with
    | none => s.drop start
    | some (i, len, repl) => (s.take i).drop start ++ repl ++ subAllAux f s fuel (i + len)

/-- `re.sub` with matcher `f` over the whole of `s`. -/
def subAll (f : Str → Nat → Option (Nat × Str)) (s : Str) : Str :=
  subAllAux f s (s.length + 1) 0

/-- Python `summary.split('.')`. -/
def splitDot : Str → List Str
  | [] => [[]]
  | c :: t =>
    if c = '.' then [] :: splitDot t
    else
      match splitDot t with
      | h :: r => (c :: h) :: r
      | [] => [[c]]

/-- Python `'.'.join(parts)`. -/
def joinDot : List Str → Str
  | [] => []
  | [x] => x
  | x :: r => x ++ '.' :: joinDot r

/-- Python `s.strip()` (whitespace from both ends). -/
def stripC (s : Str) : Str := ((s.dropWhile isSpc).reverse.dropWhile isSpc).reverse

/-- The final step of `clean_api_summary`: capitalize the first character
when it is not already an uppercase letter. -/
def capFirst : Str → Str
  | [] => []
  | c :: r => if !isUpperC c then c.toUpper :: r else c :: r

/-- The sentence-fragment step of `clean_api_summary` (lines 157-159):
drop a trailing fragment shorter than 10 characters after the final period. -/
def dropShortFragment (s : Str) : Str :=
  let sentences := splitDot s
  if 1 < sentences.length ∧ (stripC (sentences.getLastD [])).length < 10 then
    joinDot sentences.dropLast ++ ['.']
  else s

/-- `clean_api_summary(summary)` (lines 138-166). -/
def clean_api_summary (summary : Str) : Str :=
  if summary = [] then summary
  else
    let s1 := subAll matchDupKw summary
    let s2 := subAll matchDupWord s1
    let s3 := subAll matchColon s2
    let s4 := subAll matchWs s3
    let s5 := dropShortFragment s4
    capFirst (stripC s5)

/-- Number of (possibly overlapping) occurrences of `sub` in `s`. -/
def countSub (sub s : Str) : Nat :=
  ((List.range (s.length + 1)).filter fun i => sub.isPrefixOf (s.drop i)).length

/-- Python `s == '' or s.isspace()`: the string is empty or whitespace-only. -/
def allWS (s : Str) : Bool := s.all isSpc

/-- Python `s.lstrip()`: drop leading whitespace. -/
def dropLeadWS (s : Str) : Str := s.dropWhile isSpc

/-- Python `s.rstrip()`: drop trailing whitespace. -/
def dropTrailWS (s : Str) : Str := (s.reverse.dropWhile isSpc).reverse

/-- The text after the last period: `getLastD (splitDot s) []`, i.e. Python
`s.split('.')[-1]`. -/
def lastFrag (s : Str) : Str := (splitDot s).getLastD []

/-- Whitespace-normal form: every whitespace character is a plain space and
no two whitespace characters are adjacent.  This is the shape `re.sub(r'\s+', ' ', .)`
leaves behind, and on strings of this shape that substitution is the
identity. -/
def WsNorm : Str → Prop
  | [] => True
  | [c] => isSpc c = true → c = ' '
  | c :: d :: t => (isSpc c = true → (c = ' ' ∧ isSpc d = false)) ∧ WsNorm (d :: t)

example : clean_api_summary (chars "Patient Patient has no no issues.. Fine")
    = chars "Patient has no issues.." := by decide
example : clean_api_summary (chars "pain pain pain") = chars "Pain pain" := by decide
example : clean_api_summary (chars "Pain pain") = chars "Pain" := by decide
example : clean_api_summary (chars ": : :") = chars ": :" := by decide

example : assess_risk_level (chars "I feel fine today") = "low" := by decide
example : assess_risk_level (chars "severe chest pain level 9") = "high" := by decide
example : assess_risk_level (chars "I haven't had any side effects") = "medium" := by decide
example : assess_risk_level (chars "chest pain and dizziness") = "high" := by decide
example : assess_risk_level (chars "worse and worse") = "medium" := by decide
example : assess_risk_level (chars "no chest pain but some nausea") = "medium" := by decide
example : assess_risk_level (chars "without swelling or fainting") = "low" := by decide
example : assess_risk_level (chars "pain level 8 still") = "medium" := by decide
example : assess_risk_level (chars "CHEST PAIN NOW") = "medium" := by decide
example : assess_risk_level (chars "don't worry nothing wrong") = "low" := by decide
example : assess_risk_level (chars "sweating vomiting nausea") = "high" := by decide

example : analyze_respiratory_content (chars "I have severe difficulty breathing")
    = "⚠️ Respiratory concerns noted - Monitor closely" := by decide
example : analyze_respiratory_content (chars "no shortness at all")
    = "✅ No significant respiratory symptoms reported" := by decide
example : analyze_respiratory_content (chars "breathing is ok")
    = "✅ Normal respiratory function reported" := by decide
example : analyze_respiratory_content (chars "slight wheeze")
    = "🔶 Mild respiratory symptoms - Within expected recovery range" := by decide

example : clean_api_summary (chars "a a a b") = chars "A a b" := by decide
example : clean_api_summary (chars "x  y") = chars "X y" := by decide
example : clean_api_summary (chars "cardiac  Cardiac arrest") = chars "Cardiac arrest" := by decide
example : clean_api_summary (chars "word word.") = chars "Word." := by decide
example : clean_api_summary (chars "abc.. defghijklm") = chars "Abc.. defghijklm" := by decide
example : clean_api_summary (chars " hi hi ") = chars "Hi" := by decide
example : clean_api_summary (chars "A: : B") = chars "A: B" := by decide
example : clean_api_summary (chars "so so so so") = chars "So so" := by decide
example : clean_api_summary (chars "one.two") = chars "One." := by decide
example : clean_api_summary (chars "one. two") = chars "One." := by decide
example : clean_api_summary (chars "end end") = chars "End" := by decide

example : assess_risk_level (chars "") = "medium" := by decide
example : assess_risk_level (chars "severe") = "high" := by decide
example : assess_risk_level (chars "no severe severe") = "high" := by decide
example : assess_risk_level (chars "level 9 chest pain") = "medium" := by decide
example : assess_risk_level (chars "no chest pain level 9 chest pain") = "high" := by decide
example : assess_risk_level (chars "not worse") = "low" := by decide

/- ------------------------------------------------------------------ -/
/- Shared lemmas: characters                                          -/
/- ------------------------------------------------------------------ -/

theorem toNat_ofNat_valid {n : Nat} (h : n.isValidChar) : (Char.ofNat n).toNat = n := by
  unfold Char.ofNat
  rw [dif_pos h]
  rfl

theorem toNat_toLower (c : Char) :
    (Char.toLower c).toNat = if c.toNat ≥ 65 ∧ c.toNat ≤ 90 then c.toNat + 32 else c.toNat := by
  simp only [Char.toLower]
  by_cases h : c.toNat ≥ 65 ∧ c.toNat ≤ 90
  · rw [if_pos h, if_pos h]
    exact toNat_ofNat_valid (Or.inl (by omega))
  · rw [if_neg h, if_neg h]

theorem toNat_toUpper (c : Char) :
    (Char.toUpper c).toNat = if c.toNat ≥ 97 ∧ c.toNat ≤ 122 then c.toNat - 32 else c.toNat := by
  simp only [Char.toUpper]
  by_cases h : c.toNat ≥ 97 ∧ c.toNat ≤ 122
  · rw [if_pos h, if_pos h]
    exact toNat_ofNat_valid (Or.inl (by omega))
  · rw [if_neg h, if_neg h]

theorem isSpc_toLower (c : Char) : isSpc (Char.toLower c) = isSpc c := by
  simp only [isSpc, decide_eq_decide, toNat_toLower]
  by_cases h : c.toNat ≥ 65 ∧ c.toNat ≤ 90
  · rw [if_pos h]; omega
  · rw [if_neg h]

theorem isSpc_toUpper (c : Char) : isSpc (Char.toUpper c) = isSpc c := by
  simp only [isSpc, decide_eq_decide, toNat_toUpper]
  by_cases h : c.toNat ≥ 97 ∧ c.toNat ≤ 122
  · rw [if_pos h]; omega
  · rw [if_neg h]

theorem isWordChar_toLower (c : Char) : isWordChar (Char.toLower c) = isWordChar c := by
  simp only [isWordChar, decide_eq_decide, toNat_toLower]
  by_cases h : c.toNat ≥ 65 ∧ c.toNat ≤ 90
  · rw [if_pos h]; omega
  · rw [if_neg h]

theorem toUpper_toUpper (c : Char) : Char.toUpper (Char.toUpper c) = Char.toUpper c := by
  have key : ¬((Char.toUpper c).toNat ≥ 97 ∧ (Char.toUpper c).toNat ≤ 122) := by
    rw [toNat_toUpper]
    by_cases h : c.toNat ≥ 97 ∧ c.toNat ≤ 122
    · rw [if_pos h]; omega
    · rw [if_neg h]; exact h
  show (if (Char.toUpper c).toNat ≥ 97 ∧ (Char.toUpper c).toNat ≤ 122 then
      Char.ofNat ((Char.toUpper c).toNat - 32) else Char.toUpper c) = Char.toUpper c
  rw [if_neg key]

/- ------------------------------------------------------------------ -/
/- Shared lemmas: substring search                                    -/
/- ------------------------------------------------------------------ -/

theorem findSubAux_isSome_iff (sub : Str) :
    ∀ (s : Str) (i : Nat), (findSubAux sub s i).isSome = true ↔ ∃ u, u <:+ s ∧ sub <+: u := by
  intro s
  induction s with
  | nil =>
    intro i
    constructor
    · intro h
      refine ⟨[], List.suffix_refl _, ?_⟩
      unfold findSubAux at h
      by_cases hp : sub.isPrefixOf ([] : Str)
      · exact List.isPrefixOf_iff_prefix.mp hp
      · rw [if_neg hp] at h
        simp at h
    · rintro ⟨u, hu, hsub⟩
      have hu0 : u = [] := List.suffix_nil.mp hu
      subst hu0
      unfold findSubAux
      rw [if_pos (List.isPrefixOf_iff_prefix.mpr hsub)]
      rfl
  | cons c t ih =>
    intro i
    unfold findSubAux
    by_cases hp : sub.isPrefixOf (c :: t)
    · rw [if_pos hp]
      simp only [Option.isSome_some, true_iff]
      exact ⟨c :: t, List.suffix_refl _, List.isPrefixOf_iff_prefix.mp hp⟩
    · rw [if_neg hp]
      rw [ih (i + 1)]
      constructor
      · rintro ⟨u, hu, hs⟩
        exact ⟨u, hu.trans (List.suffix_cons c t), hs⟩
      · rintro ⟨u, hu, hs⟩
        rcases List.suffix_cons_iff.mp hu with rfl | hu'
        · exact absurd (List.isPrefixOf_iff_prefix.mpr hs) hp
        · exact ⟨u, hu', hs⟩

theorem containsSub_infix_iff {sub s : Str} : containsSub sub s = true ↔ sub <:+: s := by
  unfold containsSub findSub
  rw [findSubAux_isSome_iff, List.infix_iff_prefix_suffix]
  constructor <;> rintro ⟨u, h1, h2⟩ <;> exact ⟨u, h2, h1⟩

theorem containsSub_trans {a b s : Str} (h1 : containsSub a b = true)
    (h2 : containsSub b s = true) : containsSub a s = true :=
  containsSub_infix_iff.mpr ((containsSub_infix_iff.mp h1).trans (containsSub_infix_iff.mp h2))

theorem containsSub_lowerStr {sub s : Str} (h : containsSub sub s = true) :
    containsSub (lowerStr sub) (lowerStr s) = true := by
  rw [containsSub_infix_iff] at h ⊢
  rcases h with ⟨u, v, rfl⟩
  exact ⟨lowerStr u, lowerStr v, by simp [lowerStr]⟩

theorem mem_of_containsSub {sub s : Str} (h : containsSub sub s = true) : ∀ c ∈ sub, c ∈ s :=
  fun _ hc => ((containsSub_infix_iff.mp h).sublist).subset hc

/- ------------------------------------------------------------------ -/
/- Shared lemmas: whitespace-only inputs                              -/
/- ------------------------------------------------------------------ -/

theorem containsSub_eq_false_of_allWS {sub s : Str} (hws : allWS s = true)
    (hch : ∃ c ∈ sub, isSpc c = false) : containsSub sub s = false := by
  rcases hch with ⟨c, hc, hcf⟩
  cases h : containsSub sub s
  · rfl
  · exfalso
    have hm := mem_of_containsSub h c hc
    have := List.all_eq_true.mp hws c hm
    simp [hcf] at this

theorem allWS_lowerStr {s : Str} (h : allWS s = true) : allWS (lowerStr s) = true := by
  unfold allWS lowerStr
  rw [List.all_map]
  refine List.all_eq_true.mpr fun c hc => ?_
  have : isSpc (Char.toLower c) = isSpc c := isSpc_toLower c
  simp only [Function.comp_apply, this]
  exact List.all_eq_true.mp h c hc

theorem allWS_append {a b : Str} (ha : allWS a = true) (hb : allWS b = true) :
    allWS (a ++ b) = true := by
  unfold allWS at *
  rw [List.all_append, ha, hb]
  rfl

theorem allWS_cons_space {b : Str} (hb : allWS b = true) : allWS (' ' :: b) = true := by
  unfold allWS at *
  rw [List.all_cons, hb]
  rfl

theorem anyContains_eq_false {L : List Str} {s : Str} (hws : allWS s = true)
    (hL : ∀ kw ∈ L, ∃ c ∈ kw, isSpc c = false) :
    (L.any fun w => containsSub w s) = false := by
  rw [List.any_eq_false]
  intro w hw
  rw [containsSub_eq_false_of_allWS hws (hL w hw)]
  simp

/- ------------------------------------------------------------------ -/
/- Shared lemmas: decision cascades                                   -/
/- ------------------------------------------------------------------ -/

theorem decideRisk_mem (hi lo md : Nat) (ovr : Bool) :
    decideRisk hi lo md ovr = "low" ∨ decideRisk hi lo md ovr = "medium" ∨
    decideRisk hi lo md ovr = "high" := by
  unfold decideRisk
  split_ifs <;> simp

theorem decideRisk_rank_le_add (hi md : Nat) (ovr : Bool) (l b : Nat) :
    riskRank (decideRisk hi (l + b) md ovr) ≤ riskRank (decideRisk hi l md ovr) := by
  cases ovr
  · unfold decideRisk
    simp only [Bool.false_eq_true, or_false]
    split_ifs <;> first | decide | omega
  · unfold decideRisk
    simp only [or_true, if_true]
    decide

theorem decideStage_rank_ge (e g c : Nat) (hc : 1 ≤ c) :
    stageRank (decideStage e g c) ≤ stageRank (decideStage (e + 1) g 0) := by
  unfold decideStage
  split_ifs <;> first | decide | omega

/- ------------------------------------------------------------------ -/
/- Claim theorems                                                     -/
/- ------------------------------------------------------------------ -/

/-- C1 (counterexample): the negation property fails as stated.  For the
single high-risk keyword `k = "severe"` and `T = "severe"`, the negated text
`T' = "no severe severe"` is still classified "high" (never "low"/"medium"),
because the absolute-override branch ignores negation; and for
`k = "chest pain"`, `T = "level 9 chest pain"`, prefixing `"no chest pain "`
RAISES the risk from "medium" to "high", because the concatenation creates a
new occurrence of the override string "pain level 9". -/
theorem C1_counterexample :
    assess_risk_level (chars "no severe severe") = "high" ∧
    assess_risk_level (chars "level 9 chest pain") = "medium" ∧
    assess_risk_level (chars "no chest pain level 9 chest pain") = "high" := by decide

/-- C1 (amended): for every high-risk keyword `k`, the single-keyword negated
text `T' = "no " + k + " " + k` is classified "high" exactly when `T'`
contains one of the absolute-override strings
{"severe", "emergency", "pain level 9", "pain level 10"}, and "low" otherwise. -/
theorem C1_negated_single_keyword_risk :
    ∀ kw ∈ highRiskKeywords,
      assess_risk_level (chars "no " ++ kw ++ ' ' :: kw) =
        (if severePresent (chars "no " ++ kw ++ ' ' :: kw) = true then "high" else "low") := by
  have h : (highRiskKeywords.all fun kw =>
      assess_risk_level (chars "no " ++ kw ++ ' ' :: kw) ==
        (if severePresent (chars "no " ++ kw ++ ' ' :: kw) = true then "high" else "low")) =
      true := by decide
  intro kw hkw
  exact eq_of_beq (List.all_eq_true.mp h kw hkw)

/-- C1 (witness): instantiation at the high-risk keyword "chest pain". -/
theorem C1_negated_single_keyword_risk_witness :
    (chars "chest pain" ∈ highRiskKeywords) ∧
      assess_risk_level (chars "no " ++ chars "chest pain" ++ ' ' :: chars "chest pain") =
        (if severePresent (chars "no " ++ chars "chest pain" ++ ' ' :: chars "chest pain") = true
         then "high" else "low") :=
  ⟨by decide, C1_negated_single_keyword_risk _ (by decide)⟩

/-- C2: whenever the lowercased text contains an absolute-override string
("severe", "emergency", "pain level 9", "pain level 10") or the
negation-filtered `high_risk_count` is at least 2, the Risk Scorer returns
"high" — this is the first branch of the cascade, checked before any other
branch, so negation cues elsewhere cannot prevent it. -/
theorem C2_absolute_override_forces_high (t : Str)
    (h : 2 ≤ highRiskCount (lowerStr t) ∨ severePresent (lowerStr t) = true) :
    assess_risk_level t = "high" := by
  unfold assess_risk_level decideRisk
  rw [if_pos h]

/-- C2 (witness): instantiation at the text "severe". -/
theorem C2_absolute_override_forces_high_witness :
    (2 ≤ highRiskCount (lowerStr (chars "severe")) ∨
      severePresent (lowerStr (chars "severe")) = true) ∧
    assess_risk_level (chars "severe") = "high" :=
  ⟨Or.inr (by decide), C2_absolute_override_forces_high _ (Or.inr (by decide))⟩

/-- C3 (counterexample): the claim fails for the cue "don't", which belongs
to the Negation Detector's nine-cue set but not to the respiratory
analyzer's own seven-cue list: "don't have severe symptoms" contains the
concerning keyword "severe" and the cue "don't", yet the analyzer returns
the Concerning status, not Positive. -/
theorem C3_counterexample :
    respHasConcerning (lowerStr (chars "don't have severe symptoms")) = true ∧
    containsSub (chars "don't") (lowerStr (chars "don't have severe symptoms")) = true ∧
    analyze_respiratory_content (chars "don't have severe symptoms") =
      "⚠️ Respiratory concerns noted - Monitor closely" := by decide

/-- C3 (amended): with the respiratory analyzer's own cue list
{"haven't", "have not", "no", "not", "never", "none", "without"} (without
"don't" and "do not"), a concerning keyword together with any cue anywhere
in the text yields the Positive status. -/
theorem C3_respiratory_negated_concerning (t : Str)
    (hc : respHasConcerning (lowerStr t) = true) (hn : respHasNegative (lowerStr t) = true) :
    analyze_respiratory_content t = "✅ No significant respiratory symptoms reported" := by
  simp only [analyze_respiratory_content]
  rw [hc, hn]
  simp

/-- C3 (witness): instantiation at "no severe breathing problems". -/
theorem C3_respiratory_negated_concerning_witness :
    respHasConcerning (lowerStr (chars "no severe breathing problems")) = true ∧
    respHasNegative (lowerStr (chars "no severe breathing problems")) = true ∧
    analyze_respiratory_content (chars "no severe breathing problems") =
      "✅ No significant respiratory symptoms reported" :=
  ⟨by decide, by decide, C3_respiratory_negated_concerning _ (by decide) (by decide)⟩

/-- C4 (counterexample): the summary report interpolates the generation
timestamp, so two calls with identical four inputs but different clock
readings produce different `summary_report` strings — the output is not
byte-identical across calls. -/
theorem C4_counterexample :
    (generate_ai_summary [] [] [] [] "2024-01-01 10:00").1 ≠
      (generate_ai_summary [] [] [] [] "2024-01-01 10:01").1 := by decide

/-- C4 (amended): the assess operation is deterministic given identical
inputs AND an identical clock reading: the risk-level component never
depends on the clock, and the whole output pair is byte-identical whenever
the clock reading coincides. -/
theorem C4_assess_deterministic_given_clock :
    ∀ (ca br me ac : Str) (t₁ t₂ : String),
      (generate_ai_summary ca br me ac t₁).2 = (generate_ai_summary ca br me ac t₂).2 ∧
      (t₁ = t₂ → generate_ai_summary ca br me ac t₁ = generate_ai_summary ca br me ac t₂) :=
  fun _ _ _ _ _ _ => ⟨rfl, fun h => by rw [h]⟩

/-- C4 (witness): instantiation at empty inputs and concrete clock readings. -/
theorem C4_assess_deterministic_given_clock_witness :
    ((generate_ai_summary [] [] [] [] "2024-01-01 10:00").2 =
      (generate_ai_summary [] [] [] [] "2024-01-01 10:01").2) ∧
    (generate_ai_summary [] [] [] [] "2024-01-01 10:00" =
      generate_ai_summary [] [] [] [] "2024-01-01 10:00") :=
  ⟨(C4_assess_deterministic_given_clock [] [] [] [] "2024-01-01 10:00" "2024-01-01 10:01").1,
   (C4_assess_deterministic_given_clock [] [] [] [] "2024-01-01 10:00" "2024-01-01 10:00").2 rfl⟩

/-- C6: the negation corrections only ever move results toward the
positive/low-risk direction: the Risk Scorer with the `low_risk_count += 2`
correction returns a risk level no higher than the variant without it, and
the Recovery-Stage Assessor with the `excellent_count += 1, concerning_count = 0`
correction returns a stage at least as advanced as the variant without it. -/
theorem C6_corrections_monotone :
    ∀ (t ca re me ac : Str),
      riskRank (assess_risk_level t) ≤ riskRank (assess_risk_level_noCorrection t) ∧
      stageRank (assess_recovery_stage_noCorrection ca re me ac) ≤
        stageRank (assess_recovery_stage ca re me ac) := by
  intro t ca re me ac
  refine ⟨?_, ?_⟩
  · exact decideRisk_rank_le_add (highRiskCount (lowerStr t)) (mediumRiskCount (lowerStr t))
      (severePresent (lowerStr t)) (lowRiskCountBase (lowerStr t)) _
  · unfold assess_recovery_stage assess_recovery_stage_noCorrection
    by_cases h : 0 < concCount (recoveryFullText ca re me ac) ∧
        recoveryHasNeg (recoveryFullText ca re me ac) = true
    · rw [if_pos h]
      exact decideStage_rank_ge _ _ _ h.1
    · rw [if_neg h]

/-- C7: for every four input texts (and clock reading) the assess operation
returns a pair whose risk level is one of "low"/"medium"/"high", and the
fallback template computes exactly the same risk level from the same
concatenated text, so a fallback substitution preserves the risk output.
Totality of the embedding reflects that no exception escapes. -/
theorem C7_assess_total_valid :
    ∀ (ca br me ac : Str) (now : String),
      ((generate_ai_summary ca br me ac now).2 = "low" ∨
       (generate_ai_summary ca br me ac now).2 = "medium" ∨
       (generate_ai_summary ca br me ac now).2 = "high") ∧
      (generate_fallback_summary ca br me ac now).2 = (generate_ai_summary ca br me ac now).2 :=
  fun _ _ _ _ _ => ⟨decideRisk_mem _ _ _ _, rfl⟩

/-- C9 (counterexample): on the spec's concrete input the cleaner does NOT
collapse the doubled period: the output is "Patient has no issues.." and
still contains "..", because the fragment-dropping step re-appends a period
to a text that already ends with one and no step collapses period runs. -/
theorem C9_counterexample :
    clean_api_summary (chars "Patient Patient has no no issues.. Fine") =
      chars "Patient has no issues.." ∧
    containsSub (chars "..")
      (clean_api_summary (chars "Patient Patient has no no issues.. Fine")) = true := by decide

/-- C9 (amended): on input "Patient Patient has no no issues.. Fine" the
cleaner outputs "Patient has no issues..": "Patient" occurs once, "no"
occurs once, the short trailing fragment "Fine" is removed and the first
letter is uppercase — but the doubled period ".." is preserved, not
collapsed. -/
theorem C9_cleaner_concrete :
    clean_api_summary (chars "Patient Patient has no no issues.. Fine") =
      chars "Patient has no issues.." ∧
    countSub (chars "Patient") (chars "Patient has no issues..") = 1 ∧
    countSub (chars "no") (chars "Patient has no issues..") = 1 ∧
    containsSub (chars "Fine") (chars "Patient has no issues..") = false ∧
    (chars "Patient has no issues..").headD ' ' = 'P' ∧
    isUpperC 'P' = true := by decide

/-- C10: any text containing "not taking" also contains the cue "not", so
the medication analyzer's `has_negative` is true and the
adherence-issue-and-not-negative branch can never fire: the analyzer never
returns the adherence-concern status on such texts. -/
theorem C10_not_taking_never_adherence_concern (t : Str)
    (h : containsSub (chars "not taking") t = true) :
    analyze_medication_content t ≠
      "⚠️ MEDICATION ADHERENCE CONCERN - Requires immediate intervention" := by
  have h1 : containsSub (chars "not taking") (lowerStr t) = true := by
    have h2 := containsSub_lowerStr h
    have h3 : lowerStr (chars "not taking") = chars "not taking" := by decide
    rw [h3] at h2
    exact h2
  have h2 : containsSub (chars "not") (lowerStr t) = true :=
    containsSub_trans (by decide) h1
  have h3 : medHasNegative (lowerStr t) = true := by
    unfold medHasNegative
    rw [List.any_eq_true]
    exact ⟨chars "not", by decide, h2⟩
  simp only [analyze_medication_content]
  rw [h3]
  simp only [Bool.not_true, Bool.and_false, Bool.and_true]
  split_ifs <;> first | decide | exact False.elim (by assumption)

/-- C10 (witness): instantiation at the text "not taking" itself. -/
theorem C10_not_taking_never_adherence_concern_witness :
    containsSub (chars "not taking") (chars "not taking") = true ∧
      analyze_medication_content (chars "not taking") ≠
        "⚠️ MEDICATION ADHERENCE CONCERN - Requires immediate intervention" :=
  ⟨by decide, C10_not_taking_never_adherence_concern _ (by decide)⟩

/- C8 support: whitespace-only inputs match no keyword. -/

theorem highKw_nonspace : ∀ kw ∈ highRiskKeywords, ∃ c ∈ kw, isSpc c = false := by decide

theorem lowKw_nonspace : ∀ kw ∈ lowRiskKeywords, ∃ c ∈ kw, isSpc c = false := by decide

theorem medKw_nonspace : ∀ kw ∈ mediumRiskKeywords, ∃ c ∈ kw, isSpc c = false := by decide

theorem severeKw_nonspace : ∀ kw ∈ severeOverrideKeywords, ∃ c ∈ kw, isSpc c = false := by decide

theorem negKw_nonspace : ∀ kw ∈ negativeIndicators, ∃ c ∈ kw, isSpc c = false := by decide

theorem highKeywordCounts_eq_false_of_not_contains {t kw : Str}
    (h : containsSub kw t = false) : highKeywordCounts t kw = false := by
  unfold highKeywordCounts
  cases hf : findSub kw t with
  | none => rfl
  | some p =>
    exfalso
    unfold containsSub at h
    rw [hf] at h
    simp at h

theorem highRiskCount_eq_zero_of_allWS {t : Str} (h : allWS t = true) : highRiskCount t = 0 := by
  unfold highRiskCount
  rw [List.length_eq_zero, List.filter_eq_nil_iff]
  intro kw hkw
  rw [highKeywordCounts_eq_false_of_not_contains
    (containsSub_eq_false_of_allWS h (highKw_nonspace kw hkw))]
  simp

theorem lowRiskCountBase_eq_zero_of_allWS {t : Str} (h : allWS t = true) :
    lowRiskCountBase t = 0 := by
  unfold lowRiskCountBase
  rw [List.length_eq_zero, List.filter_eq_nil_iff]
  intro kw hkw
  rw [containsSub_eq_false_of_allWS h (lowKw_nonspace kw hkw)]
  simp

theorem mediumRiskCount_eq_zero_of_allWS {t : Str} (h : allWS t = true) :
    mediumRiskCount t = 0 := by
  unfold mediumRiskCount
  rw [List.length_eq_zero, List.filter_eq_nil_iff]
  intro kw hkw
  rw [containsSub_eq_false_of_allWS h (medKw_nonspace kw hkw)]
  simp

theorem hasNegative_eq_false_of_allWS {t : Str} (h : allWS t = true) :
    hasNegative t = false :=
  anyContains_eq_false h negKw_nonspace

theorem severePresent_eq_false_of_allWS {t : Str} (h : allWS t = true) :
    severePresent t = false :=
  anyContains_eq_false h severeKw_nonspace

theorem lowRiskCount_eq_zero_of_allWS {t : Str} (h : allWS t = true) :
    lowRiskCount t = 0 := by
  unfold lowRiskCount
  rw [lowRiskCountBase_eq_zero_of_allWS h, hasNegative_eq_false_of_allWS h]
  simp

/-- C8: when every input field is empty or whitespace-only, the cardiac and
activity analyzers return their else-branch Ambiguous status, and the Risk
Scorer on the concatenated text returns "medium" through the default
fallback branch (all three keyword counts are 0 and the override is absent,
so no earlier branch applies).  Totality of the embedding reflects that no
exception is raised. -/
theorem C8_whitespace_inputs (a b c d : Str)
    (ha : allWS a = true) (hb : allWS b = true) (hcc : allWS c = true) (hd : allWS d = true) :
    analyze_cardiac_content a = "🔍 Mixed symptom presentation - Requires clinical evaluation" ∧
    analyze_activity_content d = "🔍 Activity level requires further assessment" ∧
    highRiskCount (lowerStr (fullText a b c d)) = 0 ∧
    lowRiskCount (lowerStr (fullText a b c d)) = 0 ∧
    mediumRiskCount (lowerStr (fullText a b c d)) = 0 ∧
    severePresent (lowerStr (fullText a b c d)) = false ∧
    assess_risk_level (fullText a b c d) = "medium" := by
  have hfull : allWS (lowerStr (fullText a b c d)) = true := by
    apply allWS_lowerStr
    unfold fullText
    exact allWS_append ha (allWS_cons_space (allWS_append hb (allWS_cons_space
      (allWS_append hcc (allWS_cons_space hd)))))
  have ha' := allWS_lowerStr ha
  have hd' := allWS_lowerStr hd
  refine ⟨?_, ?_, highRiskCount_eq_zero_of_allWS hfull, lowRiskCount_eq_zero_of_allWS hfull,
    mediumRiskCount_eq_zero_of_allWS hfull, severePresent_eq_false_of_allWS hfull, ?_⟩
  · have e1 : (cardiacConcerningWords.any fun w => containsSub w (lowerStr a)) = false :=
      anyContains_eq_false ha' (by decide)
    have e2 : (cardiacModerateWords.any fun w => containsSub w (lowerStr a)) = false :=
      anyContains_eq_false ha' (by decide)
    have e3 : (cardiacMildWords.any fun w => containsSub w (lowerStr a)) = false :=
      anyContains_eq_false ha' (by decide)
    have e4 : (cardiacPositiveWords.any fun w => containsSub w (lowerStr a)) = false :=
      anyContains_eq_false ha' (by decide)
    unfold analyze_cardiac_content
    rw [e1, e2, e3, e4]
    simp
  · have e1 : (activityConcerningWords.any fun w => containsSub w (lowerStr d)) = false :=
      anyContains_eq_false hd' (by decide)
    have e2 : (activityModerateWords.any fun w => containsSub w (lowerStr d)) = false :=
      anyContains_eq_false hd' (by decide)
    have e3 : (activityPositiveWords.any fun w => containsSub w (lowerStr d)) = false :=
      anyContains_eq_false hd' (by decide)
    unfold analyze_activity_content
    rw [e1, e2, e3]
    simp
  · unfold assess_risk_level
    rw [highRiskCount_eq_zero_of_allWS hfull, lowRiskCount_eq_zero_of_allWS hfull,
      mediumRiskCount_eq_zero_of_allWS hfull, severePresent_eq_false_of_allWS hfull]
    decide

/-- C8 (witness): instantiation at one single-space field and three empty
fields. -/
theorem C8_whitespace_inputs_witness :
    (allWS (chars " ") = true ∧ allWS ([] : Str) = true) ∧
    (analyze_cardiac_content (chars " ") =
        "🔍 Mixed symptom presentation - Requires clinical evaluation" ∧
      analyze_activity_content [] = "🔍 Activity level requires further assessment" ∧
      highRiskCount (lowerStr (fullText (chars " ") [] [] [])) = 0 ∧
      lowRiskCount (lowerStr (fullText (chars " ") [] [] [])) = 0 ∧
      mediumRiskCount (lowerStr (fullText (chars " ") [] [] [])) = 0 ∧
      severePresent (lowerStr (fullText (chars " ") [] [] [])) = false ∧
      assess_risk_level (fullText (chars " ") [] [] []) = "medium") :=
  ⟨⟨by decide, by decide⟩,
   C8_whitespace_inputs (chars " ") [] [] [] (by decide) (by decide) (by decide) (by decide)⟩

/- C5 support, part 1: characterizing the leftmost-match scan. -/

theorem findFromAux_eq_none_iff (f : Str → Nat → Option (Nat × Str)) (s : Str) :
    ∀ (rem i : Nat), findFromAux f s i rem = none ↔
      ∀ j, i ≤ j → j ≤ i + rem → f s j = none := by
  intro rem
  induction rem with
  | zero =>
    intro i
    constructor
    · intro h j h1 h2
      have hj : j = i := by omega
      subst hj
      unfold findFromAux at h
      cases hf : f s j with
      | none => rfl
      | some m => rw [hf] at h; cases h
    · intro h
      unfold findFromAux
      rw [h i le_rfl (by omega)]
  | succ rem ih =>
    intro i
    constructor
    · intro h j h1 h2
      unfold findFromAux at h
      cases hf : f s i with
      | some m => rw [hf] at h; cases h
      | none =>
        rw [hf] at h
        by_cases hj : j = i
        · subst hj; exact hf
        · exact (ih (i + 1)).mp h j (by omega) (by omega)
    · intro h
      unfold findFromAux
      rw [h i le_rfl (by omega)]
      exact (ih (i + 1)).mpr fun j h1 h2 => h j (by omega) (by omega)

theorem findFrom_eq_none_iff (f : Str → Nat → Option (Nat × Str)) (s : Str) (start : Nat) :
    findFrom f s start = none ↔ ∀ j, start ≤ j → j ≤ s.length → f s j = none := by
  unfold findFrom
  by_cases h : start ≤ s.length
  · rw [if_pos h, findFromAux_eq_none_iff]
    constructor
    · intro hh j h1 h2
      exact hh j h1 (by omega)
    · intro hh j h1 h2
      exact hh j h1 (by omega)
  · rw [if_neg h]
    simp only [true_iff]
    exact fun j h1 h2 => (h (h1.trans h2)).elim

theorem findFromAux_eq_some (f : Str → Nat → Option (Nat × Str)) (s : Str) :
    ∀ (rem i i' len : Nat) (repl : Str), findFromAux f s i rem = some (i', len, repl) →
      i ≤ i' ∧ i' ≤ i + rem ∧ f s i' = some (len, repl) ∧
        ∀ j, i ≤ j → j < i' → f s j = none := by
  intro rem
  induction rem with
  | zero =>
    intro i i' len repl h
    unfold findFromAux at h
    cases hf : f s i with
    | none => rw [hf] at h; cases h
    | some m =>
      rw [hf] at h
      injection h with h'
      simp only [Prod.mk.injEq] at h'
      obtain ⟨rfl, rfl, rfl⟩ := h'
      exact ⟨le_rfl, by omega, hf, fun j h1 h2 => by omega⟩
  | succ rem ih =>
    intro i i' len repl h
    unfold findFromAux at h
    cases hf : f s i with
    | some m =>
      rw [hf] at h
      injection h with h'
      simp only [Prod.mk.injEq] at h'
      obtain ⟨rfl, rfl, rfl⟩ := h'
      exact ⟨le_rfl, by omega, hf, fun j h1 h2 => by omega⟩
    | none =>
      rw [hf] at h
      obtain ⟨h1, h2, h3, h4⟩ := ih (i + 1) i' len repl h
      refine ⟨by omega, by omega, h3, fun j hj1 hj2 => ?_⟩
      by_cases hji : j = i
      · subst hji; exact hf
      · exact h4 j (by omega) hj2

theorem findFrom_eq_some {f : Str → Nat → Option (Nat × Str)} {s : Str} {start i len : Nat}
    {repl : Str} (h : findFrom f s start = some (i, len, repl)) :
    start ≤ i ∧ i ≤ s.length ∧ f s i = some (len, repl) ∧
      ∀ j, start ≤ j → j < i → f s j = none := by
  unfold findFrom at h
  by_cases hs : start ≤ s.length
  · rw [if_pos hs] at h
    obtain ⟨h1, h2, h3, h4⟩ := findFromAux_eq_some f s _ _ _ _ _ h
    exact ⟨h1, by omega, h3, h4⟩
  · rw [if_neg hs] at h; cases h

theorem subAll_eq_self_of_none {f : Str → Nat → Option (Nat × Str)} {s : Str}
    (h : findFrom f s 0 = none) : subAll f s = s := by
  unfold subAll subAllAux
  rw [h]
  simp

theorem subAllAux_eq_drop (f : Str → Nat → Option (Nat × Str)) (s : Str)
    (hrepl : ∀ i len repl, f s i = some (len, repl) → repl = (s.drop i).take len) :
    ∀ fuel start, subAllAux f s fuel start = s.drop start := by
  intro fuel
  induction fuel with
  | zero => intro start; rfl
  | succ fuel ih =>
    intro start
    unfold subAllAux
    cases hf : findFrom f s start with
    | none => rfl
    | some m =>
      obtain ⟨i, len, repl⟩ := m
      obtain ⟨h1, h2, h3, _⟩ := findFrom_eq_some hf
      show (s.take i).drop start ++ repl ++ subAllAux f s fuel (i + len) = s.drop start
      rw [ih (i + len), hrepl i len repl h3, List.append_assoc]
      have e1 : (s.drop i).take len ++ s.drop (i + len) = s.drop i := by
        have h4 : s.drop (i + len) = (s.drop i).drop len := by rw [List.drop_drop]
        rw [h4, List.take_append_drop]
      rw [e1]
      have e2 : (s.take i).drop start = (s.drop start).take (i - start) := by
        rw [List.take_drop, show start + (i - start) = i by omega]
      have e3 : s.drop i = (s.drop start).drop (i - start) := by
        rw [List.drop_drop, show start + (i - start) = i by omega]
      rw [e2, e3, List.take_append_drop]

theorem subAll_eq_self_of_repl_eq {f : Str → Nat → Option (Nat × Str)} {s : Str}
    (hrepl : ∀ i len repl, f s i = some (len, repl) → repl = (s.drop i).take len) :
    subAll f s = s := by
  unfold subAll
  rw [subAllAux_eq_drop f s hrepl]
  simp

/- C5 support, part 2: whitespace-normal strings. -/

theorem WsNorm_tail {c : Char} {r : Str} (h : WsNorm (c :: r)) : WsNorm r := by
  cases r with
  | nil => trivial
  | cons d t => exact h.2

theorem WsNorm_head_space {c : Char} {r : Str} (h : WsNorm (c :: r)) (hc : isSpc c = true) :
    c = ' ' := by
  cases r with
  | nil => exact h hc
  | cons d t => exact (h.1 hc).1

theorem WsNorm_head_next {c d : Char} {t : Str} (h : WsNorm (c :: d :: t))
    (hc : isSpc c = true) : isSpc d = false := (h.1 hc).2

theorem WsNorm_cons_not {c : Char} {r : Str} (hc : isSpc c = false) (hr : WsNorm r) :
    WsNorm (c :: r) := by
  cases r with
  | nil => intro h; exact absurd h (by simp [hc])
  | cons d t => exact ⟨fun h => absurd h (by simp [hc]), hr⟩

theorem WsNorm_append_left : ∀ {a b : Str}, WsNorm (a ++ b) → WsNorm a := by
  intro a
  induction a with
  | nil => intro b _; trivial
  | cons c a' ih =>
    intro b h
    cases a' with
    | nil => intro hc; exact WsNorm_head_space h hc
    | cons c2 a'' => exact ⟨h.1, ih h.2⟩

theorem WsNorm_append_right : ∀ {a b : Str}, WsNorm (a ++ b) → WsNorm b := by
  intro a
  induction a with
  | nil => exact fun h => h
  | cons c a' ih => intro b h; exact ih (WsNorm_tail h)

theorem WsNorm_drop {s : Str} (h : WsNorm s) (i : Nat) : WsNorm (s.drop i) := by
  have e := List.take_append_drop i s
  exact WsNorm_append_right (a := s.take i) (by rwa [e])

theorem WsNorm_of_all_not {l : Str} (h : ∀ c ∈ l, isSpc c = false) : WsNorm l := by
  induction l with
  | nil => trivial
  | cons c r ih =>
    exact WsNorm_cons_not (h c (by simp)) (ih fun d hd => h d (by simp [hd]))

theorem matchWs_eq_some {u : Str} {i len : Nat} {repl : Str}
    (h : matchWs u i = some (len, repl)) :
    repl = [' '] ∧ len = runLen isSpc u i ∧ 1 ≤ len := by
  unfold matchWs at h
  by_cases h0 : runLen isSpc u i = 0
  · rw [if_pos h0] at h; cases h
  · rw [if_neg h0] at h
    injection h with h'
    simp only [Prod.mk.injEq] at h'
    obtain ⟨rfl, rfl⟩ := h'
    exact ⟨rfl, rfl, by omega⟩

theorem matchWs_eq_none_iff {u : Str} {i : Nat} :
    matchWs u i = none ↔ runLen isSpc u i = 0 := by
  unfold matchWs
  by_cases h0 : runLen isSpc u i = 0
  · rw [if_pos h0]; simp [h0]
  · rw [if_neg h0]; simp [h0]

theorem runLen_zero_iff {p : Char → Bool} {u : Str} {i : Nat} :
    runLen p u i = 0 ↔ ∀ c ∈ (u.drop i).head?, p c = false := by
  unfold runLen
  cases hd : u.drop i with
  | nil => simp
  | cons c rest =>
    rw [List.takeWhile_cons]
    by_cases hp : p c = true
    · rw [if_pos hp]
      simp [hp]
    · rw [if_neg hp]
      simp [Bool.eq_false_iff.mpr hp]

theorem runLen_one_of_wsNorm {u : Str} (h : WsNorm u) {i : Nat}
    (hpos : 1 ≤ runLen isSpc u i) :
    runLen isSpc u i = 1 ∧ (u.drop i).take 1 = [' '] := by
  have hu : WsNorm (u.drop i) := WsNorm_drop h i
  unfold runLen at hpos ⊢
  cases hd : u.drop i with
  | nil => rw [hd] at hpos; simp at hpos
  | cons c rest =>
    rw [hd] at hpos hu
    rw [List.takeWhile_cons] at hpos ⊢
    by_cases hp : isSpc c = true
    · have hc : c = ' ' := WsNorm_head_space hu hp
      rw [if_pos hp] at hpos ⊢
      cases rest with
      | nil => simp [hc]
      | cons d t =>
        have hdns : isSpc d = false := WsNorm_head_next hu hp
        rw [List.takeWhile_cons, if_neg (by simp [hdns])]
        simp [hc]
    · rw [if_neg hp] at hpos
      simp at hpos

theorem subAll_matchWs_eq_self {t : Str} (h : WsNorm t) : subAll matchWs t = t := by
  apply subAll_eq_self_of_repl_eq
  intro i len repl hm
  obtain ⟨hr, hl, hpos⟩ := matchWs_eq_some hm
  obtain ⟨h1, h2⟩ := runLen_one_of_wsNorm h (i := i) (hl ▸ hpos)
  subst hr
  rw [hl, h1]
  exact h2.symm

/- C5 support, part 3: a whitespace pass always produces a WsNorm string. -/

theorem head?_take_pos {l : Str} {n : Nat} (h : 1 ≤ n) : (l.take n).head? = l.head? := by
  cases l with
  | nil => simp
  | cons c t =>
    cases n with
    | zero => omega
    | succ n => simp

theorem head_dropWhile_false {p : Char → Bool} {l : Str} :
    ∀ c ∈ (l.dropWhile p).head?, p c = false := by
  intro c hc
  have hm := List.head?_dropWhile_not p l
  cases hh : (l.dropWhile p).head? with
  | none => rw [hh] at hc; cases hc
  | some x =>
    rw [hh] at hm hc
    have hx : p x = false := hm
    cases hc
    exact hx

theorem seg_all_not_spc (u : Str) :
    ∀ n start stop, stop ≤ start + n →
      (∀ j, start ≤ j → j < stop → matchWs u j = none) →
      ∀ c ∈ (u.take stop).drop start, isSpc c = false := by
  intro n
  induction n with
  | zero =>
    intro start stop hle hnm c hc
    have h1 : (u.take stop).length ≤ start := by
      have := List.length_take stop u
      omega
    rw [List.drop_eq_nil_of_le h1] at hc
    cases hc
  | succ n ih =>
    intro start stop hle hnm c hc
    cases hd : (u.take stop).drop start with
    | nil => rw [hd] at hc; cases hc
    | cons c0 rest =>
      rw [hd] at hc
      have hlen := List.length_take stop u
      have hstart : start < (u.take stop).length := by
        by_contra hcon
        rw [List.drop_eq_nil_of_le (by omega)] at hd
        cases hd
      have hds : (u.take stop).drop start = (u.drop start).take (stop - start) := by
        rw [List.take_drop, show start + (stop - start) = stop by omega]
      have hh : (u.drop start).head? = some c0 := by
        rw [← head?_take_pos (l := u.drop start) (n := stop - start) (by omega), ← hds, hd]
        rfl
      have hm := hnm start le_rfl (by omega)
      have h0 := matchWs_eq_none_iff.mp hm
      have hns := runLen_zero_iff.mp h0 c0 (by rw [hh]; rfl)
      rcases List.mem_cons.mp hc with rfl | hc2
      · exact hns
      · have hrest : (u.take stop).drop (start + 1) = rest := by
          have e : (u.take stop).drop (start + 1) = ((u.take stop).drop start).drop 1 := by
            rw [List.drop_drop]
          rw [e, hd]
          rfl
        apply ih (start + 1) stop (by omega) (fun j hj1 hj2 => hnm j (by omega) hj2)
        rw [hrest]
        exact hc2

theorem matchWs_none_past_end {u : Str} {i : Nat} (h : u.length ≤ i) : matchWs u i = none := by
  rw [matchWs_eq_none_iff, runLen_zero_iff]
  intro c hc
  rw [List.drop_eq_nil_of_le h] at hc
  cases hc

theorem subAllAux_matchWs_nil {u : Str} {start : Nat} (h : u.length ≤ start) :
    ∀ fuel, subAllAux matchWs u fuel start = [] := by
  intro fuel
  cases fuel with
  | zero => exact List.drop_eq_nil_of_le h
  | succ fuel =>
    unfold subAllAux
    cases hf : findFrom matchWs u start with
    | none => exact List.drop_eq_nil_of_le h
    | some m =>
      obtain ⟨i, len, repl⟩ := m
      obtain ⟨h1, h2, h3, _⟩ := findFrom_eq_some hf
      exfalso
      rw [matchWs_none_past_end (by omega)] at h3
      cases h3

theorem subAllAux_matchWs_head {u : Str} {start : Nat} (hm : matchWs u start = none) :
    ∀ fuel, (subAllAux matchWs u fuel start).head? = (u.drop start).head? := by
  intro fuel
  cases fuel with
  | zero => rfl
  | succ fuel =>
    unfold subAllAux
    cases hf : findFrom matchWs u start with
    | none => rfl
    | some m =>
      obtain ⟨i, len, repl⟩ := m
      obtain ⟨h1, h2, h3, _⟩ := findFrom_eq_some hf
      show ((u.take i).drop start ++ repl ++ subAllAux matchWs u fuel (i + len)).head? = _
      have hi : start < i := by
        rcases Nat.lt_or_ge start i with hlt | hge
        · exact hlt
        · exfalso
          have : start = i := by omega
          subst this
          rw [hm] at h3
          cases h3
      have hlen := List.length_take i u
      have hne : (u.take i).drop start ≠ [] := by
        apply List.ne_nil_of_length_pos
        rw [List.length_drop]
        omega
      obtain ⟨c0, r0, hseg⟩ := List.exists_cons_of_ne_nil hne
      have hds : (u.take i).drop start = (u.drop start).take (i - start) := by
        rw [List.take_drop, show start + (i - start) = i by omega]
      rw [List.append_assoc, hseg]
      have hh : (u.drop start).head? = some c0 := by
        rw [← head?_take_pos (l := u.drop start) (n := i - start) (by omega), ← hds, hseg]
        rfl
      rw [hh]
      rfl

theorem WsNorm_space_cons {r : Str} (hr : WsNorm r)
    (hh : ∀ c ∈ r.head?, isSpc c = false) : WsNorm (' ' :: r) := by
  cases r with
  | nil => exact fun _ => rfl
  | cons d t => exact ⟨fun _ => ⟨rfl, hh d (by simp)⟩, hr⟩

theorem WsNorm_append_nospc {seg rest : Str} (hseg : ∀ c ∈ seg, isSpc c = false)
    (hr : WsNorm rest) : WsNorm (seg ++ rest) := by
  induction seg with
  | nil => exact hr
  | cons c s ih =>
    exact WsNorm_cons_not (hseg c (by simp)) (ih fun d hd => hseg d (by simp [hd]))

theorem subAllAux_matchWs_wsNorm (u : Str) :
    ∀ fuel start, u.length < fuel + start → WsNorm (subAllAux matchWs u fuel start) := by
  intro fuel
  induction fuel with
  | zero =>
    intro start h
    show WsNorm (u.drop start)
    rw [List.drop_eq_nil_of_le (by omega)]
    trivial
  | succ fuel ih =>
    intro start h
    unfold subAllAux
    cases hf : findFrom matchWs u start with
    | none =>
      show WsNorm (u.drop start)
      have hnone := (findFrom_eq_none_iff _ _ _).mp hf
      apply WsNorm_of_all_not
      have e : u.drop start = (u.take u.length).drop start := by rw [List.take_length]
      rw [e]
      exact seg_all_not_spc u u.length start u.length (by omega)
        (fun j hj1 hj2 => hnone j hj1 (by omega))
    | some m =>
      obtain ⟨i, len, repl⟩ := m
      obtain ⟨h1, h2, h3, h4⟩ := findFrom_eq_some hf
      show WsNorm ((u.take i).drop start ++ repl ++ subAllAux matchWs u fuel (i + len))
      obtain ⟨hrepl, hlen, hpos⟩ := matchWs_eq_some h3
      subst hrepl
      rw [List.append_assoc]
      apply WsNorm_append_nospc
      · exact seg_all_not_spc u (i - start) start i (by omega) h4
      · have hlb : i + len ≤ u.length := by
          have hle : len ≤ (u.drop i).length := by
            rw [hlen]
            exact (List.takeWhile_prefix isSpc).length_le
          rw [List.length_drop] at hle
          omega
        rcases Nat.lt_or_ge (i + len) u.length with hlt | hge
        · have e : u.drop (i + len) = (u.drop i).dropWhile isSpc := by
            have e1 : u.drop (i + len) = (u.drop i).drop len := by rw [List.drop_drop]
            rw [e1, hlen]
            conv_lhs => rw [← List.takeWhile_append_dropWhile (p := isSpc) (l := u.drop i)]
            exact List.drop_left' rfl
          have hnm2 : matchWs u (i + len) = none := by
            rw [matchWs_eq_none_iff, runLen_zero_iff, e]
            exact head_dropWhile_false
          have hh := subAllAux_matchWs_head hnm2 fuel
          apply WsNorm_space_cons (ih (i + len) (by omega))
          intro c hc
          rw [hh, e] at hc
          exact head_dropWhile_false c hc
        · rw [subAllAux_matchWs_nil (by omega) fuel]
          exact WsNorm_space_cons trivial (by simp)

theorem subAll_matchWs_wsNorm (u : Str) : WsNorm (subAll matchWs u) :=
  subAllAux_matchWs_wsNorm u (u.length + 1) 0 (by omega)

/- C5 support, part 4: period splitting and the fragment-dropping step. -/

theorem splitDot_ne_nil : ∀ s : Str, splitDot s ≠ [] := by
  intro s
  cases s with
  | nil => simp [splitDot]
  | cons c t =>
    unfold splitDot
    by_cases hc : c = '.'
    · rw [if_pos hc]; simp
    · rw [if_neg hc]
      cases hd : splitDot t with
      | nil => simp
      | cons h r => simp

theorem joinDot_cons {x : Str} {r : List Str} (h : r ≠ []) :
    joinDot (x :: r) = x ++ '.' :: joinDot r := by
  cases r with
  | nil => exact absurd rfl h
  | cons y r' => rfl

theorem joinDot_splitDot : ∀ s : Str, joinDot (splitDot s) = s := by
  intro s
  induction s with
  | nil => rfl
  | cons c t ih =>
    unfold splitDot
    by_cases hc : c = '.'
    · rw [if_pos hc, joinDot_cons (splitDot_ne_nil t), ih, hc]
      rfl
    · rw [if_neg hc]
      cases hd : splitDot t with
      | nil => exact absurd hd (splitDot_ne_nil t)
      | cons h r =>
        rw [hd] at ih
        cases r with
        | nil =>
          show c :: h = c :: t
          have : joinDot [h] = h := rfl
          rw [this] at ih
          rw [ih]
        | cons y r' =>
          show c :: (h ++ '.' :: joinDot (y :: r')) = c :: t
          rw [show h ++ '.' :: joinDot (y :: r') = joinDot (h :: y :: r') from
            (joinDot_cons (by simp)).symm, ih]

theorem splitDot_append_dot : ∀ u : Str, splitDot (u ++ ['.']) = splitDot u ++ [[]] := by
  intro u
  induction u with
  | nil => rfl
  | cons c t ih =>
    show splitDot (c :: (t ++ ['.'])) = splitDot (c :: t) ++ [[]]
    unfold splitDot
    by_cases hc : c = '.'
    · rw [if_pos hc, if_pos hc, ih]
      rfl
    · rw [if_neg hc, if_neg hc, ih]
      cases hd : splitDot t with
      | nil => exact absurd hd (splitDot_ne_nil t)
      | cons h r => rfl

theorem splitDot_len_pos (s : Str) : 1 ≤ (splitDot s).length := by
  cases hd : splitDot s with
  | nil => exact absurd hd (splitDot_ne_nil s)
  | cons h r => simp

theorem dot_mem_iff_splitDot (s : Str) : '.' ∈ s ↔ 1 < (splitDot s).length := by
  induction s with
  | nil => simp [splitDot]
  | cons c t ih =>
    unfold splitDot
    by_cases hc : c = '.'
    · rw [if_pos hc]
      subst hc
      simp only [List.mem_cons, true_or, List.length_cons, true_iff]
      have := splitDot_len_pos t
      omega
    · rw [if_neg hc]
      cases hd : splitDot t with
      | nil => exact absurd hd (splitDot_ne_nil t)
      | cons h r =>
        rw [hd] at ih
        simp only [List.mem_cons, List.length_cons] at ih ⊢
        constructor
        · rintro (rfl | hm)
          · exact absurd rfl hc
          · exact ih.mp hm
        · intro hl
          exact Or.inr (ih.mpr hl)

theorem splitDot_no_dot {s : Str} (h : '.' ∉ s) : splitDot s = [s] := by
  induction s with
  | nil => rfl
  | cons c t ih =>
    unfold splitDot
    rw [if_neg (by intro hc; exact h (by simp [hc]))]
    rw [ih (fun hm => h (by simp [hm]))]

theorem getLastD_irrel {l : List Str} (h : l ≠ []) (a b : Str) :
    l.getLastD a = l.getLastD b := by
  cases l with
  | nil => exact absurd rfl h
  | cons c t => rw [List.getLastD_cons, List.getLastD_cons]

theorem joinDot_decomp : ∀ (l : List Str), 2 ≤ l.length →
    joinDot l = joinDot l.dropLast ++ '.' :: l.getLastD [] := by
  intro l
  induction l with
  | nil => intro h; simp at h
  | cons x r ih =>
    intro h
    cases r with
    | nil => simp at h
    | cons y r' =>
      rw [joinDot_cons (by simp), List.dropLast_cons₂, List.getLastD_cons]
      cases r' with
      | nil =>
        show x ++ '.' :: joinDot [y] = joinDot [x] ++ '.' :: y
        rfl
      | cons z r'' =>
        rw [ih (by simp)]
        rw [getLastD_irrel (l := y :: z :: r'') (by simp) x []]
        rw [joinDot_cons (show (y :: z :: r'').dropLast ≠ [] from by
          rw [List.dropLast_cons₂]; simp)]
        simp [List.append_assoc]

theorem splitDot_decomp {x : Str} (h : 2 ≤ (splitDot x).length) :
    x = (joinDot (splitDot x).dropLast ++ ['.']) ++ lastFrag x := by
  have := joinDot_decomp (splitDot x) h
  rw [joinDot_splitDot] at this
  rw [List.append_assoc]
  exact this

theorem dropShort_of_ends_dot (u : Str) :
    dropShortFragment (u ++ ['.']) = u ++ ['.'] := by
  unfold dropShortFragment
  rw [splitDot_append_dot]
  rw [if_pos]
  · rw [List.dropLast_concat, joinDot_splitDot]
  · constructor
    · rw [List.length_append]
      have := splitDot_len_pos u
      simp
      omega
    · rw [List.getLastD_concat]
      show (stripC []).length < 10
      simp [stripC]

/- C5 support, part 5: how stripping and capitalization interact with the
period structure. -/

theorem splitDot_cons_dot {c : Char} {t : Str} (hc : c = '.') :
    splitDot (c :: t) = [] :: splitDot t := by
  conv_lhs => unfold splitDot
  rw [if_pos hc]

theorem splitDot_cons_ne {c : Char} {t : Str} (hc : c ≠ '.') {h : Str} {r : List Str}
    (hd : splitDot t = h :: r) : splitDot (c :: t) = (c :: h) :: r := by
  conv_lhs => unfold splitDot
  rw [if_neg hc, hd]

theorem splitDot_cons_shape (t : Str) : ∃ h r, splitDot t = h :: r := by
  cases hd : splitDot t with
  | nil => exact absurd hd (splitDot_ne_nil t)
  | cons h r => exact ⟨h, r, rfl⟩

theorem stripC_eq (s : Str) : stripC s = dropTrailWS (dropLeadWS s) := rfl

theorem dropWhile_append_last_not {p : Char → Bool} {a : Char} (ha : p a = false) :
    ∀ u : Str, (u ++ [a]).dropWhile p = u.dropWhile p ++ [a] := by
  intro u
  induction u with
  | nil => simp [List.dropWhile_cons, ha]
  | cons c t ih =>
    show ((c :: (t ++ [a])).dropWhile p) = (c :: t).dropWhile p ++ [a]
    rw [List.dropWhile_cons, List.dropWhile_cons]
    by_cases hc : p c = true
    · rw [if_pos hc, if_pos hc]
      exact ih
    · rw [if_neg hc, if_neg hc]
      rfl

theorem dropTrailWS_ends_not {v : Str} {a : Char} (ha : isSpc a = false) :
    dropTrailWS (v ++ [a]) = v ++ [a] := by
  unfold dropTrailWS
  rw [List.reverse_append]
  simp [List.dropWhile_cons, ha]

theorem strip_append_dot (u : Str) : stripC (u ++ ['.']) = dropLeadWS u ++ ['.'] := by
  rw [stripC_eq]
  show dropTrailWS ((u ++ ['.']).dropWhile isSpc) = _
  rw [dropWhile_append_last_not (by decide) u]
  exact dropTrailWS_ends_not (by decide)

theorem dropWhile_allWS_nil {z : Str} (h : allWS z = true) : z.dropWhile isSpc = [] := by
  induction z with
  | nil => rfl
  | cons c t ih =>
    have hh : isSpc c = true ∧ t.all isSpc = true := by simpa [allWS] using h
    rw [List.dropWhile_cons, if_pos hh.1]
    exact ih hh.2

theorem not_dot_of_allWS {z : Str} (h : allWS z = true) : '.' ∉ z := by
  intro hm
  exact absurd (List.all_eq_true.mp h '.' hm) (by decide)

theorem strip_append_ws {w z : Str} (h : allWS z = true) : stripC (w ++ z) = stripC w := by
  rw [stripC_eq, stripC_eq]
  show dropTrailWS ((w ++ z).dropWhile isSpc) = _
  rw [List.dropWhile_append]
  by_cases he : (w.dropWhile isSpc).isEmpty
  · rw [if_pos he, dropWhile_allWS_nil h]
    have hw : w.dropWhile isSpc = [] := List.isEmpty_iff.mp he
    show dropTrailWS [] = dropTrailWS (dropLeadWS w)
    rw [show dropLeadWS w = w.dropWhile isSpc from rfl, hw]
  · rw [if_neg he]
    unfold dropTrailWS
    rw [List.reverse_append]
    rw [List.dropWhile_append_of_pos (fun a ha => by
      have := List.all_eq_true.mp h a (List.mem_reverse.mp ha)
      exact this)]
    rfl

theorem dropTrailWS_decomp (x : Str) :
    x = dropTrailWS x ++ (x.reverse.takeWhile isSpc).reverse ∧
      allWS (x.reverse.takeWhile isSpc).reverse = true := by
  constructor
  · unfold dropTrailWS
    conv_lhs => rw [← List.reverse_reverse x,
      ← List.takeWhile_append_dropWhile (p := isSpc) (l := x.reverse)]
    rw [List.reverse_append]
  · unfold allWS
    rw [List.all_reverse]
    exact List.all_eq_true.mpr fun c hc => List.mem_takeWhile_imp hc

theorem dropLeadWS_decomp (x : Str) :
    x = x.takeWhile isSpc ++ dropLeadWS x ∧ allWS (x.takeWhile isSpc) = true := by
  constructor
  · exact (List.takeWhile_append_dropWhile isSpc x).symm
  · exact List.all_eq_true.mpr fun c hc => List.mem_takeWhile_imp hc

theorem splitDot_append_right {z : Str} (hz : '.' ∉ z) :
    ∀ y : Str, splitDot (y ++ z) =
      (splitDot y).dropLast ++ [(splitDot y).getLastD [] ++ z] := by
  intro y
  induction y with
  | nil =>
    show splitDot z = _
    rw [splitDot_no_dot hz]
    rfl
  | cons c y' ih =>
    show splitDot (c :: (y' ++ z)) = _
    obtain ⟨h, r, hd⟩ := splitDot_cons_shape y'
    by_cases hc : c = '.'
    · rw [splitDot_cons_dot hc, ih, hd, splitDot_cons_dot hc, hd, List.dropLast_cons₂]
      simp only [List.getLastD_cons]
      rfl
    · cases r with
      | nil =>
        have ihr : splitDot (y' ++ z) = [h ++ z] := by
          rw [ih, hd]
          rfl
        rw [splitDot_cons_ne hc ihr, splitDot_cons_ne hc hd]
        rfl
      | cons h2 r2 =>
        have ihr : splitDot (y' ++ z) =
            h :: ((h2 :: r2).dropLast ++ [(h2 :: r2).getLastD [] ++ z]) := by
          rw [ih, hd, List.dropLast_cons₂]
          simp only [List.getLastD_cons]
          rfl
        rw [splitDot_cons_ne hc ihr, splitDot_cons_ne hc hd, List.dropLast_cons₂]
        simp only [List.getLastD_cons]
        rfl

theorem lastFrag_append_right {z : Str} (hz : '.' ∉ z) (y : Str) :
    lastFrag (y ++ z) = lastFrag y ++ z := by
  unfold lastFrag
  rw [splitDot_append_right hz y, List.getLastD_concat]

theorem splitDot_append_left_no_dot : ∀ (a b : Str), '.' ∉ a →
    ∃ h r, splitDot b = h :: r ∧ splitDot (a ++ b) = (a ++ h) :: r := by
  intro a
  induction a with
  | nil =>
    intro b _
    obtain ⟨h, r, hd⟩ := splitDot_cons_shape b
    exact ⟨h, r, hd, by simpa using hd⟩
  | cons c a' ih =>
    intro b hna
    have hc : c ≠ '.' := fun hh => hna (by simp [hh])
    obtain ⟨h, r, hd, he⟩ := ih b (fun hm => hna (by simp [hm]))
    exact ⟨h, r, hd, by
      rw [show (c :: a') ++ b = c :: (a' ++ b) from rfl, splitDot_cons_ne hc he]
      rfl⟩

theorem lastFrag_append_left {a b : Str} (ha : '.' ∉ a) (hb : '.' ∈ b) :
    lastFrag (a ++ b) = lastFrag b := by
  obtain ⟨h, r, hd, he⟩ := splitDot_append_left_no_dot a b ha
  unfold lastFrag
  rw [hd, he]
  have hr : r ≠ [] := by
    have hlen := (dot_mem_iff_splitDot b).mp hb
    rw [hd] at hlen
    cases r with
    | nil => simp at hlen
    | cons q r' => simp
  cases r with
  | nil => exact absurd rfl hr
  | cons q r' => simp only [List.getLastD_cons]

/- C5 support, part 6: capitalization and stripping are stable on cleaner
outputs. -/

theorem char_eq_iff_toNat {a b : Char} : a = b ↔ a.toNat = b.toNat := by
  constructor
  · intro h
    rw [h]
  · intro h
    have h2 := congrArg Char.ofNat h
    rwa [Char.ofNat_toNat, Char.ofNat_toNat] at h2

theorem toUpper_dot_iff (c : Char) : Char.toUpper c = '.' ↔ c = '.' := by
  rw [char_eq_iff_toNat, char_eq_iff_toNat (a := c), toNat_toUpper]
  have h46 : ('.' : Char).toNat = 46 := rfl
  rw [h46]
  by_cases h : c.toNat ≥ 97 ∧ c.toNat ≤ 122
  · rw [if_pos h]
    omega
  · rw [if_neg h]

theorem capFirst_mem_dot {x : Str} : '.' ∈ capFirst x ↔ '.' ∈ x := by
  cases x with
  | nil => exact Iff.rfl
  | cons c r =>
    show '.' ∈ (if !isUpperC c then Char.toUpper c :: r else c :: r) ↔ _
    split_ifs with h
    · simp only [List.mem_cons]
      constructor
      · rintro (h1 | h1)
        · exact Or.inl ((toUpper_dot_iff c).mp h1.symm).symm
        · exact Or.inr h1
      · rintro (h1 | h1)
        · exact Or.inl ((toUpper_dot_iff c).mpr h1.symm).symm
        · exact Or.inr h1
    · exact Iff.rfl

theorem lastFrag_cons_of_mem {c : Char} {r : Str} (h : '.' ∈ r) :
    lastFrag (c :: r) = lastFrag r := by
  unfold lastFrag
  by_cases hc : c = '.'
  · rw [splitDot_cons_dot hc, List.getLastD_cons]
  · obtain ⟨H, R, hdr⟩ := splitDot_cons_shape r
    rw [splitDot_cons_ne hc hdr, hdr]
    have hR : R ≠ [] := by
      have hlen := (dot_mem_iff_splitDot r).mp h
      rw [hdr] at hlen
      cases R with
      | nil => simp at hlen
      | cons q R' => simp
    cases R with
    | nil => exact absurd rfl hR
    | cons q R' => simp only [List.getLastD_cons]

theorem capFirst_dot_head {r : Str} : capFirst ('.' :: r) = '.' :: r := by
  show (if !isUpperC '.' then Char.toUpper '.' :: r else '.' :: r) = '.' :: r
  rw [if_pos (by decide), show Char.toUpper '.' = '.' from by decide]

theorem lastFrag_capFirst {x : Str} (h : '.' ∈ x) :
    lastFrag (capFirst x) = lastFrag x := by
  cases x with
  | nil => rfl
  | cons c r =>
    by_cases hr : '.' ∈ r
    · show lastFrag (if !isUpperC c then Char.toUpper c :: r else c :: r) = _
      split_ifs with hcond
      · rw [lastFrag_cons_of_mem hr, lastFrag_cons_of_mem hr]
      · rfl
    · have hc : c = '.' := by
        rcases List.mem_cons.mp h with h1 | h1
        · exact h1.symm
        · exact absurd h1 hr
      subst hc
      rw [capFirst_dot_head]

theorem mem_dot_stripC {x : Str} (h : '.' ∈ stripC x) : '.' ∈ x := by
  obtain ⟨hy, _⟩ := dropTrailWS_decomp (dropLeadWS x)
  have hpre : dropTrailWS (dropLeadWS x) <+: dropLeadWS x := ⟨_, hy.symm⟩
  have hsuf : dropLeadWS x <:+ x := List.dropWhile_suffix isSpc
  rw [stripC_eq] at h
  exact hsuf.sublist.subset (hpre.sublist.subset h)

theorem mem_dot_stripC_of_mem {x : Str} (h : '.' ∈ x) : '.' ∈ stripC x := by
  obtain ⟨hx1, hw1⟩ := dropLeadWS_decomp x
  have h1 : '.' ∈ dropLeadWS x := by
    rcases List.mem_append.mp (hx1 ▸ h) with hm | hm
    · exact absurd hm (not_dot_of_allWS hw1)
    · exact hm
  obtain ⟨hy, hz⟩ := dropTrailWS_decomp (dropLeadWS x)
  rw [stripC_eq]
  rcases List.mem_append.mp (hy ▸ h1) with hm | hm
  · exact hm
  · exact absurd hm (not_dot_of_allWS hz)

theorem strip_lastFrag_stripC {v : Str} (hd : '.' ∈ v) :
    stripC (lastFrag (stripC v)) = stripC (lastFrag v) := by
  obtain ⟨hx1, hw1⟩ := dropLeadWS_decomp v
  have h1 : '.' ∈ dropLeadWS v := by
    rcases List.mem_append.mp (hx1 ▸ hd) with hm | hm
    · exact absurd hm (not_dot_of_allWS hw1)
    · exact hm
  have h2 : lastFrag v = lastFrag (dropLeadWS v) := by
    conv_lhs => rw [hx1]
    exact lastFrag_append_left (not_dot_of_allWS hw1) h1
  obtain ⟨hy, hz⟩ := dropTrailWS_decomp (dropLeadWS v)
  have h3 : lastFrag (dropLeadWS v) =
      lastFrag (dropTrailWS (dropLeadWS v)) ++ ((dropLeadWS v).reverse.takeWhile isSpc).reverse := by
    conv_lhs => rw [hy]
    exact lastFrag_append_right (not_dot_of_allWS hz) _
  rw [h2, h3, strip_append_ws hz, stripC_eq v]

theorem capFirst_append_dot (v : Str) : ∃ w, capFirst (v ++ ['.']) = w ++ ['.'] := by
  cases v with
  | nil => exact ⟨[], by decide⟩
  | cons c r =>
    show ∃ w, (if !isUpperC c then Char.toUpper c :: (r ++ ['.']) else c :: (r ++ ['.'])) =
      w ++ ['.']
    split_ifs with h
    · exact ⟨Char.toUpper c :: r, rfl⟩
    · exact ⟨c :: r, rfl⟩

/- C5 support, part 7: the fragment-dropping step and capitalization are
stable on their own outputs. -/

theorem dropShort_stable (v : Str) :
    dropShortFragment (capFirst (stripC (dropShortFragment v))) =
      capFirst (stripC (dropShortFragment v)) := by
  by_cases hcond : 1 < (splitDot v).length ∧ (stripC ((splitDot v).getLastD [])).length < 10
  · have he : dropShortFragment v = joinDot (splitDot v).dropLast ++ ['.'] := by
      unfold dropShortFragment
      rw [if_pos hcond]
    rw [he, strip_append_dot]
    obtain ⟨w, hw⟩ := capFirst_append_dot (dropLeadWS (joinDot (splitDot v).dropLast))
    rw [hw]
    exact dropShort_of_ends_dot w
  · have he : dropShortFragment v = v := by
      unfold dropShortFragment
      rw [if_neg hcond]
    rw [he]
    have hnc : ¬(1 < (splitDot (capFirst (stripC v))).length ∧
        (stripC ((splitDot (capFirst (stripC v))).getLastD [])).length < 10) := by
      rintro ⟨hlen, hshort⟩
      have hdt : '.' ∈ capFirst (stripC v) := (dot_mem_iff_splitDot _).mpr hlen
      have hdsv : '.' ∈ stripC v := capFirst_mem_dot.mp hdt
      have hdv : '.' ∈ v := mem_dot_stripC hdsv
      have h10 : 10 ≤ (stripC ((splitDot v).getLastD [])).length := by
        rcases not_and_or.mp hcond with hl | hs
        · exact absurd ((dot_mem_iff_splitDot v).mp hdv) hl
        · omega
      have heq : stripC ((splitDot (capFirst (stripC v))).getLastD []) =
          stripC ((splitDot v).getLastD []) := by
        show stripC (lastFrag (capFirst (stripC v))) = stripC (lastFrag v)
        rw [lastFrag_capFirst hdsv, strip_lastFrag_stripC hdv]
      rw [heq] at hshort
      omega
    unfold dropShortFragment
    rw [if_neg hnc]

theorem head_stripC (x : Str) : ∀ c ∈ (stripC x).head?, isSpc c = false := by
  intro c hc
  rw [stripC_eq] at hc
  obtain ⟨hy, hz⟩ := dropTrailWS_decomp (dropLeadWS x)
  have hyh : (dropLeadWS x).head? = some c := by
    conv_lhs => rw [hy]
    rw [List.head?_append]
    cases hh : (dropTrailWS (dropLeadWS x)).head? with
    | none => rw [hh] at hc; cases hc
    | some d =>
      rw [hh] at hc
      cases hc
      rfl
  exact head_dropWhile_false c (by rw [show x.dropWhile isSpc = dropLeadWS x from rfl, hyh]; rfl)

theorem getLast_stripC (x : Str) : ∀ c ∈ (stripC x).getLast?, isSpc c = false := by
  intro c hc
  rw [stripC_eq] at hc
  unfold dropTrailWS at hc
  rw [List.getLast?_reverse] at hc
  exact head_dropWhile_false c hc

theorem stripC_eq_self {y : Str} (h1 : ∀ c ∈ y.head?, isSpc c = false)
    (h2 : ∀ c ∈ y.getLast?, isSpc c = false) : stripC y = y := by
  cases y with
  | nil => rfl
  | cons c t =>
    rw [stripC_eq]
    have hlead : dropLeadWS (c :: t) = c :: t := by
      show (c :: t).dropWhile isSpc = c :: t
      rw [List.dropWhile_cons, if_neg (by rw [h1 c rfl]; simp)]
    rw [hlead]
    unfold dropTrailWS
    have hlast : ∀ d ∈ (c :: t).reverse.head?, isSpc d = false := by
      intro d hd
      rw [List.head?_reverse] at hd
      exact h2 d hd
    cases hrev : (c :: t).reverse with
    | nil => exact absurd (congrArg List.length hrev) (by simp)
    | cons d r =>
      have hd : isSpc d = false := hlast d (by rw [hrev]; rfl)
      have e1 : List.dropWhile isSpc (d :: r) = d :: r := by
        rw [List.dropWhile_cons, if_neg (by rw [hd]; simp)]
      rw [e1, ← hrev, List.reverse_reverse]

theorem mem_some_eq {a b : Char} (h : a ∈ some b) : a = b := by
  rw [Option.mem_def] at h
  injection h with h'
  exact h'.symm

theorem head_capFirst {y : Str} (h : ∀ c ∈ y.head?, isSpc c = false) :
    ∀ c ∈ (capFirst y).head?, isSpc c = false := by
  intro c hc
  cases y with
  | nil => cases hc
  | cons c0 r =>
    show isSpc c = false
    have hc' : c ∈ ((if !isUpperC c0 then Char.toUpper c0 :: r else c0 :: r) : Str).head? := hc
    split_ifs at hc' with hcond
    · rw [mem_some_eq hc', isSpc_toUpper]
      exact h c0 rfl
    · rw [mem_some_eq hc']
      exact h c0 rfl

theorem getLast_capFirst {y : Str} (hh : ∀ c ∈ y.head?, isSpc c = false)
    (h : ∀ c ∈ y.getLast?, isSpc c = false) :
    ∀ c ∈ (capFirst y).getLast?, isSpc c = false := by
  intro c hc
  cases y with
  | nil => cases hc
  | cons c0 r =>
    cases r with
    | nil =>
      have hc' : c ∈ ((if !isUpperC c0 then Char.toUpper c0 :: ([] : Str) else [c0]) : Str).getLast? := hc
      split_ifs at hc' with hcond
      · simp only [List.getLast?_singleton] at hc'
        rw [mem_some_eq hc', isSpc_toUpper]
        exact hh c0 rfl
      · simp only [List.getLast?_singleton] at hc'
        rw [mem_some_eq hc']
        exact hh c0 rfl
    | cons c1 r' =>
      have hc' : c ∈ ((if !isUpperC c0 then Char.toUpper c0 :: c1 :: r' else c0 :: c1 :: r') : Str).getLast? := hc
      split_ifs at hc' with hcond
      · rw [List.getLast?_cons_cons] at hc'
        exact h c (by rw [List.getLast?_cons_cons]; exact hc')
      · exact h c hc'

theorem capFirst_capFirst (y : Str) : capFirst (capFirst y) = capFirst y := by
  cases y with
  | nil => rfl
  | cons c r =>
    show capFirst (if !isUpperC c then Char.toUpper c :: r else c :: r) =
      (if !isUpperC c then Char.toUpper c :: r else c :: r)
    split_ifs with hcond
    · show (if !isUpperC (Char.toUpper c) then Char.toUpper (Char.toUpper c) :: r
          else Char.toUpper c :: r) = Char.toUpper c :: r
      split_ifs with h2
      · rw [toUpper_toUpper]
      · rfl
    · show (if !isUpperC c then Char.toUpper c :: r else c :: r) = c :: r
      rw [if_neg hcond]

theorem WsNorm_of_prefix {a b : Str} (h : a <+: b) (hb : WsNorm b) : WsNorm a := by
  obtain ⟨t, ht⟩ := h
  rw [← ht] at hb
  exact WsNorm_append_left hb

theorem WsNorm_of_suffix {a b : Str} (h : a <:+ b) (hb : WsNorm b) : WsNorm a := by
  obtain ⟨t, ht⟩ := h
  rw [← ht] at hb
  exact WsNorm_append_right hb

theorem WsNorm_stripC {x : Str} (h : WsNorm x) : WsNorm (stripC x) := by
  rw [stripC_eq]
  exact WsNorm_of_prefix ⟨_, (dropTrailWS_decomp _).1.symm⟩
    (WsNorm_of_suffix (List.dropWhile_suffix isSpc) h)

theorem WsNorm_dropShort {x : Str} (h : WsNorm x) : WsNorm (dropShortFragment x) := by
  show WsNorm (if 1 < (splitDot x).length ∧ (stripC ((splitDot x).getLastD [])).length < 10
    then joinDot (splitDot x).dropLast ++ ['.'] else x)
  split_ifs with hcond
  · refine WsNorm_of_prefix ?_ h
    have hx := splitDot_decomp (x := x) (by omega)
    exact ⟨lastFrag x, hx.symm⟩
  · exact h

theorem WsNorm_capFirst {x : Str} (h : WsNorm x) : WsNorm (capFirst x) := by
  cases x with
  | nil => trivial
  | cons c r =>
    show WsNorm (if !isUpperC c then Char.toUpper c :: r else c :: r)
    split_ifs with hcond
    · cases r with
      | nil =>
        intro hsp
        rw [isSpc_toUpper] at hsp
        rw [show c = ' ' from WsNorm_head_space h hsp]
        decide
      | cons d t =>
        refine ⟨fun hsp => ?_, h.2⟩
        rw [isSpc_toUpper] at hsp
        obtain ⟨hc, hd2⟩ := h.1 hsp
        exact ⟨by rw [hc]; decide, hd2⟩
    · exact h

/- C5 support, part 8: every match of the keyword duplicator is subsumed by
the generic word duplicator, so after the `\b(\w+)\s+\1\b` pass has no match
left, neither has the `\b(cardiac|patient)\s+\1\b` pass. -/

/-- A whitespace character is not a word character. -/
theorem wordChar_of_spc {c : Char} (h : isSpc c = true) : isWordChar c = false := by
  simp only [isSpc, decide_eq_true_eq] at h
  simp only [isWordChar, decide_eq_false_iff_not]
  omega

/-- A case-insensitive prefix is no longer than the string it prefixes. -/
theorem ciPre_length {pat u : Str} (h : ciPre pat u = true) : pat.length ≤ u.length := by
  induction pat generalizing u with
  | nil => simp
  | cons a as ih =>
    cases u with
    | nil => simp [ciPre] at h
    | cons b bs =>
      simp only [ciPre, Bool.and_eq_true] at h
      simp only [List.length_cons]
      have := ih h.2
      omega

/-- If a pattern of word characters matches case-insensitively, the matched
segment consists of word characters. -/
theorem ciPre_take_word {pat u : Str} (h : ciPre pat u = true)
    (hw : ∀ a ∈ pat, isWordChar a = true) :
    ∀ c ∈ u.take pat.length, isWordChar c = true := by
  induction pat generalizing u with
  | nil => simp
  | cons a as ih =>
    cases u with
    | nil => simp [ciPre] at h
    | cons b bs =>
      simp only [ciPre, Bool.and_eq_true] at h
      intro c hc
      simp only [List.length_cons, List.take_succ_cons, List.mem_cons] at hc
      rcases hc with hc | hc
      · have hab : a.toLower = b.toLower := by simpa [ciEq] using h.1
        have hb' : isWordChar b = true := by
          rw [← isWordChar_toLower b, ← hab, isWordChar_toLower]
          exact hw a (by simp)
        rw [hc]
        exact hb'
      · exact ih h.2 (fun x hx => hw x (by simp [hx])) c hc

/-- Two case-insensitive matches of the same pattern are case-insensitively
equal to each other. -/
theorem ciPre_congr {pat u v : Str} (h1 : ciPre pat u = true)
    (h2 : ciPre pat v = true) : ciPre (u.take pat.length) v = true := by
  induction pat generalizing u v with
  | nil => simp [ciPre]
  | cons a as ih =>
    cases u with
    | nil => simp [ciPre] at h1
    | cons b bs =>
      cases v with
      | nil => simp [ciPre] at h2
      | cons c cs =>
        simp only [ciPre, Bool.and_eq_true] at h1 h2
        simp only [List.length_cons, List.take_succ_cons, ciPre, Bool.and_eq_true]
        refine ⟨?_, ih h1.2 h2.2⟩
        have e1 : a.toLower = b.toLower := by simpa [ciEq] using h1.1
        have e2 : a.toLower = c.toLower := by simpa [ciEq] using h2.1
        simp [ciEq, ← e1, ← e2]

/-- A nonzero run yields a head character satisfying the predicate. -/
theorem runLen_pos_head {p : Char → Bool} {s : Str} {i : Nat}
    (h : runLen p s i ≠ 0) :
    ∃ c, (s.drop i).head? = some c ∧ p c = true := by
  cases hh : (s.drop i).head? with
  | none =>
    refine absurd (runLen_zero_iff.mpr ?_) h
    intro c hc
    rw [hh] at hc
    simp at hc
  | some c =>
    by_cases hp : p c = true
    · exact ⟨c, rfl, hp⟩
    · refine absurd (runLen_zero_iff.mpr ?_) h
      intro d hd
      rw [hh] at hd
      rw [mem_some_eq hd]
      simpa using hp

/-- `takeWhile` returns exactly the first `n` elements when those satisfy the
predicate and the next element, if any, does not. -/
theorem takeWhile_eq_take {p : Char → Bool} {n : Nat} {u : Str}
    (h1 : ∀ c ∈ u.take n, p c = true)
    (h2 : ∀ c ∈ (u.drop n).head?, p c = false) :
    u.takeWhile p = u.take n := by
  induction n generalizing u with
  | zero =>
    cases u with
    | nil => rfl
    | cons c t =>
      have hc : p c = false := h2 c (by simp)
      simp [List.takeWhile_cons, hc]
  | succ n ih =>
    cases u with
    | nil => rfl
    | cons c t =>
      have hc : p c = true := h1 c (by simp)
      rw [List.take_succ_cons, List.takeWhile_cons, if_pos hc]
      congr 1
      exact ih (fun d hd => h1 d (by simp [hd])) (by simpa using h2)

/-- A successful alternative check certifies its four conditions. -/
theorem dupAltMatch_some {s : Str} {i : Nat} {alt : Str} {m : Nat × Str}
    (h : dupAltMatch s i alt = some m) :
    ciMatchAt alt s i = true ∧ runLen isSpc s (i + alt.length) ≠ 0 ∧
    ciMatchAt alt s (i + alt.length + runLen isSpc s (i + alt.length)) = true ∧
    boundaryAfter s (i + alt.length + runLen isSpc s (i + alt.length) + alt.length)
      = true := by
  unfold dupAltMatch at h
  split at h
  · rename_i h1
    split at h
    · rename_i h2
      simp only [Bool.and_eq_true, decide_eq_true_eq] at h2
      exact ⟨h1, h2.1.1, h2.1.2, h2.2⟩
    · exact Option.noConfusion h
  · exact Option.noConfusion h

/-- `findSome?` on a two-element list succeeds through one of the elements. -/
theorem findSome?_pair {α β : Type} (f : α → Option β) (a b : α) {v : β}
    (h : ([a, b].findSome? f) = some v) : f a = some v ∨ f b = some v := by
  cases hfa : f a with
  | some w =>
    rw [List.findSome?_cons_of_isSome _ (by rw [hfa]; rfl), hfa] at h
    exact Or.inl h
  | none =>
    rw [List.findSome?_cons_of_isNone _ (by rw [hfa]; rfl)] at h
    cases hfb : f b with
    | some w =>
      rw [List.findSome?_cons_of_isSome _ (by rw [hfb]; rfl), hfb] at h
      exact Or.inr h
    | none =>
      rw [List.findSome?_cons_of_isNone _ (by rw [hfb]; rfl)] at h
      simp at h

/-- Any match of the keyword duplicator is a match site of the generic word
duplicator: each alternative is a run of word characters followed by
mandatory whitespace, so the greedy `\w+` group captures exactly it. -/
theorem matchDupKw_imp_word {s : Str} {i : Nat} {m : Nat × Str}
    (h : matchDupKw s i = some m) : ∃ m', matchDupWord s i = some m' := by
  unfold matchDupKw at h
  split at h
  · rename_i hb
    rw [show charsL ["cardiac", "patient"] = [chars "cardiac", chars "patient"]
      from rfl] at h
    have hgen : ∀ alt : Str, alt ≠ [] → (∀ a ∈ alt, isWordChar a = true) →
        dupAltMatch s i alt = some m → ∃ m', matchDupWord s i = some m' := by
      intro alt hne hw hsome
      obtain ⟨h1, h2, h3, h4⟩ := dupAltMatch_some hsome
      have hpre : ciPre alt (s.drop i) = true := h1
      have hle : alt.length ≤ (s.drop i).length := ciPre_length hpre
      have hword := ciPre_take_word hpre hw
      obtain ⟨csp, hcsp, hspc⟩ := runLen_pos_head h2
      have hdd : (s.drop i).drop alt.length = s.drop (i + alt.length) := by
        rw [List.drop_drop]
      have hnw : ∀ c ∈ ((s.drop i).drop alt.length).head?, isWordChar c = false := by
        intro c hc
        rw [hdd, hcsp] at hc
        rw [mem_some_eq hc]
        exact wordChar_of_spc hspc
      have htw : (s.drop i).takeWhile isWordChar = (s.drop i).take alt.length :=
        takeWhile_eq_take hword hnw
      have hrl : runLen isWordChar s i = alt.length := by
        unfold runLen
        rw [htw, List.length_take]
        omega
      have hgrp : ciMatchAt ((s.drop i).take alt.length) s
          (i + alt.length + runLen isSpc s (i + alt.length)) = true :=
        ciPre_congr hpre h3
      have hne0 : ¬ runLen isWordChar s i = 0 := by
        rw [hrl]
        exact fun hh => hne (List.length_eq_zero.mp hh)
      have hss0 : ¬ runLen isSpc s (i + runLen isWordChar s i) = 0 := by
        rw [hrl]; exact h2
      have hcnd : (ciMatchAt ((s.drop i).take (runLen isWordChar s i)) s
          (i + runLen isWordChar s i + runLen isSpc s (i + runLen isWordChar s i))
        && boundaryAfter s (i + runLen isWordChar s i
          + runLen isSpc s (i + runLen isWordChar s i) + runLen isWordChar s i))
          = true := by
        rw [hrl, hgrp, h4]
        rfl
      have heq : matchDupWord s i = some (runLen isWordChar s i
          + runLen isSpc s (i + runLen isWordChar s i) + runLen isWordChar s i,
          (s.drop i).take (runLen isWordChar s i)) := by
        unfold matchDupWord
        rw [if_pos hb, if_neg hne0, if_neg hss0, if_pos hcnd]
      exact ⟨_, heq⟩
    rcases findSome?_pair _ _ _ h with hA | hP
    · exact hgen (chars "cardiac") (by decide) (by decide) hA
    · exact hgen (chars "patient") (by decide) (by decide) hP
  · exact Option.noConfusion h

/- C5 support, part 9: assembly.  A string on which the word-duplication and
colon patterns have no match, which is whitespace-normal, stripped, starts
with a non-lowercase character, and is a fixed point of the fragment drop,
is a fixed point of the whole cleaner; and every cleaner output satisfies
all but the first two of these unconditionally. -/

/-- A string satisfying all stage invariants is a fixed point of the cleaner. -/
theorem clean_fixed {t : Str}
    (hW : findFrom matchDupWord t 0 = none)
    (hC : findFrom matchColon t 0 = none)
    (hN : WsNorm t)
    (hh : ∀ c ∈ t.head?, isSpc c = false)
    (hl : ∀ c ∈ t.getLast?, isSpc c = false)
    (hD : dropShortFragment t = t)
    (hF : capFirst t = t) :
    clean_api_summary t = t := by
  by_cases ht : t = []
  · rw [ht]; rfl
  · have hkw : findFrom matchDupKw t 0 = none := by
      rw [findFrom_eq_none_iff]
      intro j hj hjl
      cases hm : matchDupKw t j with
      | none => rfl
      | some m =>
        obtain ⟨m', hm'⟩ := matchDupKw_imp_word hm
        have hz := (findFrom_eq_none_iff matchDupWord t 0).mp hW j (Nat.zero_le _) hjl
        rw [hz] at hm'
        exact Option.noConfusion hm'
    have e : clean_api_summary t = capFirst (stripC (dropShortFragment
        (subAll matchWs (subAll matchColon (subAll matchDupWord
          (subAll matchDupKw t)))))) := by
      unfold clean_api_summary
      rw [if_neg ht]
    rw [e, subAll_eq_self_of_none hkw, subAll_eq_self_of_none hW,
      subAll_eq_self_of_none hC, subAll_matchWs_eq_self hN, hD,
      stripC_eq_self hh hl, hF]

/-- The cleaner's output is whitespace-normal, has no leading or trailing
whitespace, and is a fixed point of the fragment-drop and capitalization
steps. -/
theorem clean_output_normal (s : Str) :
    WsNorm (clean_api_summary s) ∧
    (∀ c ∈ (clean_api_summary s).head?, isSpc c = false) ∧
    (∀ c ∈ (clean_api_summary s).getLast?, isSpc c = false) ∧
    dropShortFragment (clean_api_summary s) = clean_api_summary s ∧
    capFirst (clean_api_summary s) = clean_api_summary s := by
  by_cases hs : s = []
  · have e0 : clean_api_summary s = [] := by rw [hs]; rfl
    rw [e0]
    refine ⟨trivial, ?_, ?_, rfl, rfl⟩
    · intro c hc; simp at hc
    · intro c hc; simp at hc
  · have e : clean_api_summary s = capFirst (stripC (dropShortFragment
        (subAll matchWs (subAll matchColon (subAll matchDupWord
          (subAll matchDupKw s)))))) := by
      unfold clean_api_summary
      rw [if_neg hs]
    obtain ⟨w, hwdef⟩ : ∃ w, w = subAll matchWs (subAll matchColon
        (subAll matchDupWord (subAll matchDupKw s))) := ⟨_, rfl⟩
    rw [e, ← hwdef]
    have hN4 : WsNorm w := by rw [hwdef]; exact subAll_matchWs_wsNorm _
    have hN5 : WsNorm (dropShortFragment w) := WsNorm_dropShort hN4
    have hNs : WsNorm (stripC (dropShortFragment w)) := WsNorm_stripC hN5
    have hNt : WsNorm (capFirst (stripC (dropShortFragment w))) := WsNorm_capFirst hNs
    have hhs : ∀ c ∈ (stripC (dropShortFragment w)).head?, isSpc c = false :=
      head_stripC _
    have hls : ∀ c ∈ (stripC (dropShortFragment w)).getLast?, isSpc c = false :=
      getLast_stripC _
    exact ⟨hNt, head_capFirst hhs, getLast_capFirst hhs hls,
      dropShort_stable w, capFirst_capFirst _⟩

/-- C5 (amended).  The Summary Cleaner is NOT idempotent in general
(see `C5_counterexample`): a second application can find word duplications
or `:\s*:` patterns that the first pass itself created or left behind,
because the duplicate-word substitution is a single non-overlapping pass
("pain pain pain" → "Pain pain" → "Pain").  It is idempotent on every input
whose cleaned form contains no residual match of the duplicate-word pattern
`\b(\w+)\s+\1\b` and no residual match of the colon pattern `:\s*:`: all the
remaining stages (keyword dedup, whitespace collapse, fragment drop, strip,
capitalize) are provably stable on cleaner output. -/
theorem C5_cleaner_idempotent_when_stable (s : Str)
    (h1 : findFrom matchDupWord (clean_api_summary s) 0 = none)
    (h2 : findFrom matchColon (clean_api_summary s) 0 = none) :
    clean_api_summary (clean_api_summary s) = clean_api_summary s := by
  obtain ⟨hN, hh, hl, hD, hF⟩ := clean_output_normal s
  exact clean_fixed h1 h2 hN hh hl hD hF

/-- Witness for C5: on the concrete input "He is fine today." the cleaned
text has no residual duplicate-word or colon match, and the theorem applies. -/
theorem C5_cleaner_idempotent_when_stable_witness :
    clean_api_summary (clean_api_summary (chars "He is fine today."))
      = clean_api_summary (chars "He is fine today.") :=
  C5_cleaner_idempotent_when_stable (chars "He is fine today.")
    (by decide) (by decide)

/-- Counterexample to C5 as stated: the duplicate-word pass is a single
non-overlapping sweep, so cleaning "pain pain pain" yields "Pain pain",
which a second cleaning reduces further to "Pain". -/
theorem C5_counterexample :
    clean_api_summary (clean_api_summary (chars "pain pain pain"))
      ≠ clean_api_summary (chars "pain pain pain") := by decide
